import Mathlib

/-!
# Weather: expiring cache and forecast orchestration

A shallow embedding of `cache/cache.go` and of `getPostalCode` / `getForecast`
from `main.go`, followed by theorems about them.

Modelling conventions

* `time.Time` and `time.Duration` are integers counting nanoseconds, with exact
  arithmetic: `time.Since(t)` is `now - t`, `t.Add(d)` is `t + d` and
  `a.After(b)` is `a > b`.  The saturation of the standard library at the
  ends of the 64-bit range is outside the model.
* `time.Now()` is an input: every operation that reads the clock takes the
  reading(s) as an argument.
* A Go `map[string]Value` is a finite map (`Finmap`); a `range` over it visits
  the keys in an order chosen by the runtime, which is an argument here.
* A `float64` is its IEEE-754 bit pattern; a slice is `none` when nil.
* A forecast is taken as the sequences it denotes, except in the section on
  slices as references, where it is three headers over a memory of backing
  arrays.
* An `error` is `none` when nil and `some msg` otherwise, `msg` being what
  `Error()` returns.
* The operations are the sequential bodies; the section on the critical
  sections of `Get` splits `Get` where it releases the read lock.
-/

namespace Weather

/-! ## api.WeeklyForecast -/

/-- A Go `float64`, given by its IEEE-754 binary64 bit pattern. -/
structure Float64 where
  bits : Nat
deriving DecidableEq, Repr

/-- The constant `0` of type `float64` (positive zero). -/
def Float64.zero : Float64 := ⟨0⟩

/-- Go's `x == 0` on `float64`: true for positive zero (all bits clear) and for
negative zero (only the sign bit set), false for every other value, NaN
included. -/
def Float64.isZero (x : Float64) : Bool :=
  x.bits == 0 || x.bits == 2 ^ 63

/-- A Go slice seen as a value: `none` is the nil slice. -/
abbrev Slice (α : Type) := Option (List α)

/-- The struct `api.WeeklyForecast` of `api/forecast.go`. -/
structure WeeklyForecast where
  Time : Slice String
  Temperature2MMax : Slice Float64
  Temperature2MMin : Slice Float64
deriving DecidableEq, Repr

/-- The composite literal `api.WeeklyForecast{}`: all three slices nil. -/
def WeeklyForecast.empty : WeeklyForecast := ⟨none, none, none⟩

/-! ## cache.Cache -/

/-- The struct `Value` of `cache/cache.go`. -/
structure Value where
  timestamp : Int
  weeklyForecast : WeeklyForecast
  currentTemp : Float64
deriving DecidableEq, Repr

/-- The struct `Cache` of `cache/cache.go`, without its mutex. -/
structure Cache where
  data : Finmap (fun _ : String => Value)
  entryTTL : Int
deriving DecidableEq

/-- The constant `time.Minute`, in nanoseconds. -/
def Minute : Int := 60 * 1000000000

/-- The state built by `GetCacheInstance` on first use: an empty map and a
time-to-live of thirty minutes. -/
def GetCacheInstance : Cache := ⟨∅, 30 * Minute⟩

/-- The method `SetEntryTTL`. -/
def Cache.SetEntryTTL (c : Cache) (entryTTL : Int) : Cache :=
  { c with entryTTL := entryTTL }

/-- The method `Delete`: `delete(c.data, key)`. -/
def Cache.Delete (c : Cache) (key : String) : Cache :=
  { c with data := c.data.erase key }

/-- The method `Add`; `now` is the reading of `time.Now()`. -/
def Cache.Add (c : Cache) (now : Int) (key : String) (currentTemp : Float64)
    (weeklyForecast : WeeklyForecast) : Cache :=
  let value : Value :=
    { timestamp := now, weeklyForecast := weeklyForecast, currentTemp := currentTemp }
  { c with data := c.data.insert key value }

/-- The method `Get`; `now` is the clock reading inside `time.Since`.  The
result is the returned triple together with the cache state afterwards. -/
def Cache.Get (c : Cache) (now : Int) (key : String) :
    (Float64 × WeeklyForecast × Bool) × Cache :=
  match c.data.lookup key with
  | none => ((Float64.zero, WeeklyForecast.empty, false), c)
  | some value =>
    if now - value.timestamp > c.entryTTL then
      ((Float64.zero, WeeklyForecast.empty, false), c.Delete key)
    else
      ((value.currentTemp, value.weeklyForecast, true), c)

/-- The triple `Get` returns when it finds no valid entry. -/
def notFound : Float64 × WeeklyForecast × Bool :=
  (Float64.zero, WeeklyForecast.empty, false)

/-- The loop of `PurgeCache`.  `keys` are the keys still to be visited, in
the order of the `range`; `i` counts the clock readings already taken and
`clock i` is the next one.  A key that is no longer in the map is not
produced by the `range`; a key that is produced costs one call of
`time.Now()`, whose reading is compared with `timestamp + entryTTL`. -/
def purgeLoop (clock : Nat → Int) : List String → Nat → Cache → Cache
  | [], _, c => c
  | k :: keys, i, c =>
    match c.data.lookup k with
    | none => purgeLoop clock keys i c
    | some v =>
      if clock i > v.timestamp + c.entryTTL then
        purgeLoop clock keys (i + 1) { c with data := c.data.erase k }
      else
        purgeLoop clock keys (i + 1) c

/-- The method `PurgeCache`: `clock i` is the reading of the `i`-th call of
`time.Now()` made by the scan, `order` the order in which the `range` visits
the keys. -/
def Cache.PurgeCache (c : Cache) (clock : Nat → Int) (order : List String) : Cache :=
  purgeLoop clock order 0 c

/-- A list is a possible visiting order of a `range` over the map of `c`: it
holds every key of the map exactly once and nothing else. -/
def IsRangeOrder (order : List String) (c : Cache) : Prop :=
  order.Nodup ∧ order.toFinset = c.data.keys

instance (order : List String) (c : Cache) : Decidable (IsRangeOrder order c) := by
  unfold IsRangeOrder
  infer_instance

/-! ## main.go: getPostalCode -/

/-- The class `\w` of Go's `regexp`: ASCII letters, ASCII digits, underscore. -/
def isWordChar (c : Char) : Bool :=
  c.isAlphanum || c.toNat == 95

/-- The class `\s` of Go's `regexp`: tab, line feed, form feed, carriage
return and space. -/
def isPerlSpace (c : Char) : Bool :=
  c.toNat == 9 || c.toNat == 10 || c.toNat == 12 || c.toNat == 13 || c.toNat == 32

/-- The assertion `\b` of Go's `regexp` between the characters `prev` and
`next` (`none` at either end of the text): exactly one side is a word
character. -/
def atWordBoundary (prev next : Option Char) : Bool :=
  (prev.any isWordChar) != (next.any isWordChar)

/-- A match of `\b[A-Z]{2}\s\d{5}\b` starting at the head of the remaining
text, `prev` being the character just before it. -/
def matchHere (prev : Option Char) : List Char → Option (List Char)
  | a :: b :: s :: d1 :: d2 :: d3 :: d4 :: d5 :: rest =>
    if atWordBoundary prev (some a) && a.isUpper && b.isUpper && isPerlSpace s
        && d1.isDigit && d2.isDigit && d3.isDigit && d4.isDigit && d5.isDigit
        && atWordBoundary (some d5) rest.head? then
      some [a, b, s, d1, d2, d3, d4, d5]
    else
      none
  | _ => none

/-- The leftmost match of the pattern in the remaining text, or the empty
text when there is none. -/
def findFrom (prev : Option Char) : List Char → List Char
  | [] => []
  | c :: cs =>
    match matchHere prev (c :: cs) with
    | some m => m
    | none => findFrom (some c) cs

/-- The call `statePostalCode.FindString(address)` for the pattern compiled in
`getPostalCode`. -/
def FindString (address : String) : String :=
  String.mk (findFrom none address.data)

/-- The function `getPostalCode` of `main.go`; `len` counts bytes and the
slice expression `sp[len(sp)-5:]` cuts at byte offsets. -/
def getPostalCode (address : String) : String :=
  let sp := FindString address
  if sp.utf8ByteSize == 8 then
    sp.extract ⟨sp.utf8ByteSize - 5⟩ ⟨sp.utf8ByteSize⟩
  else
    ""

/-! ### The matching rule in the words of the specification -/

/-- The separator of the specification: one space character (U+0020). -/
def isSingleSpace (c : Char) : Bool :=
  c.toNat == 32

/-- The pattern of the specification at position `i` of the text: two
uppercase letters, one separator accepted by `sep`, five digits. -/
def patternAt (sep : Char → Bool) (cs : List Char) (i : Nat) : Bool :=
  (cs[i]?).any Char.isUpper && (cs[i + 1]?).any Char.isUpper && (cs[i + 2]?).any sep
    && (cs[i + 3]?).any Char.isDigit && (cs[i + 4]?).any Char.isDigit
    && (cs[i + 5]?).any Char.isDigit && (cs[i + 6]?).any Char.isDigit
    && (cs[i + 7]?).any Char.isDigit

/-- The character just before position `i` of the text, if there is one. -/
def prevAt (cs : List Char) (i : Nat) : Option Char :=
  if i = 0 then none else cs[i - 1]?

/-- The pattern of the specification stands alone at position `i`: the
character before the two letters, if any, and the character after the five
digits, if any, are not word characters. -/
def standaloneAt (sep : Char → Bool) (cs : List Char) (i : Nat) : Bool :=
  !((prevAt cs i).any isWordChar) && patternAt sep cs i && !((cs[i + 8]?).any isWordChar)

/-! ## main.go: getForecast -/

/-- A Go `error`: `none` is nil, `some msg` an error whose `Error()` is `msg`. -/
abbrev GoError := Option String

/-- What the verb `%v` prints for an `error` operand. -/
def verbV : GoError → String
  | none => "<nil>"
  | some msg => msg

/-- The call `fmt.Errorf(text + "%v", err)`. -/
def Errorf (text : String) (err : GoError) : GoError :=
  some (text ++ verbV err)

/-- The four results of `api.AddressToCoordinates`. -/
structure GeocodeResult where
  fullAddress : String
  latitude : Float64
  longitude : Float64
  err : GoError
deriving DecidableEq

/-- The three results of `api.GetForecast`. -/
structure ForecastResult where
  currentTemp : Float64
  weeklyForecast : WeeklyForecast
  err : GoError
deriving DecidableEq

/-- Everything outside `getForecast` that one call of it depends on: what the
two HTTP clients answer, and the clock readings inside `c.Get` and `c.Add`. -/
structure World where
  AddressToCoordinates : String → String → String → GeocodeResult
  GetForecast : Float64 → Float64 → String → ForecastResult
  nowGet : Int
  nowAdd : Int

/-- The calls `getForecast` makes to its collaborators, in program order. -/
inductive Call where
  | AddressToCoordinates (address geocodeURL apiKey : String)
  | CacheGet (key : String)
  | GetForecast (latitude longitude : Float64) (forecastURL : String)
  | CacheAdd (key : String) (currentTemp : Float64) (weeklyForecast : WeeklyForecast)
deriving DecidableEq

/-- The five results of `getForecast`. -/
structure Forecast where
  addressFull : String
  currentTemp : Float64
  weeklyForecast : WeeklyForecast
  isFromCache : Bool
  err : GoError
deriving DecidableEq

/-- One run of `getForecast`: what it returns, the cache afterwards and the
calls it made. -/
structure Outcome where
  ret : Forecast
  cache : Cache
  calls : List Call
deriving DecidableEq

/-- The function `getForecast` of `main.go`. -/
def getForecast (w : World) (address : String) (c : Cache)
    (geocodeURL forecastURL apiKey : String) : Outcome :=
  let geo := w.AddressToCoordinates address geocodeURL apiKey
  let call1 := Call.AddressToCoordinates address geocodeURL apiKey
  if geo.err.isSome || geo.fullAddress == "" || geo.latitude.isZero
      || geo.longitude.isZero then
    { ret := ⟨"", Float64.zero, WeeklyForecast.empty, false,
        Errorf "error retrieving coordinates: " geo.err⟩
      cache := c
      calls := [call1] }
  else
    let pc := getPostalCode geo.fullAddress
    let got := c.Get w.nowGet pc
    let call2 := Call.CacheGet pc
    if !got.1.2.2 then
      let fc := w.GetForecast geo.latitude geo.longitude forecastURL
      let call3 := Call.GetForecast geo.latitude geo.longitude forecastURL
      if fc.err.isSome then
        { ret := ⟨"", Float64.zero, WeeklyForecast.empty, false,
            Errorf "error retrieving forecast: " fc.err⟩
          cache := got.2
          calls := [call1, call2, call3] }
      else
        { ret := ⟨geo.fullAddress, fc.currentTemp, fc.weeklyForecast, false, none⟩
          cache := got.2.Add w.nowAdd pc fc.currentTemp fc.weeklyForecast
          calls := [call1, call2, call3, Call.CacheAdd pc fc.currentTemp fc.weeklyForecast] }
    else
      { ret := ⟨geo.fullAddress, got.1.1, got.1.2.1, true, none⟩
        cache := got.2
        calls := [call1, call2] }

/-- The geocoding result passes the guard of `getForecast`: no error, a
non-empty address, and neither coordinate equal to zero. -/
def GeocodeResult.accepted (g : GeocodeResult) : Prop :=
  g.err = none ∧ g.fullAddress ≠ "" ∧ g.latitude.isZero = false ∧ g.longitude.isZero = false

instance (g : GeocodeResult) : Decidable g.accepted := by
  unfold GeocodeResult.accepted
  infer_instance

/-! ## Slices as references

The definitions above take a forecast as the sequences it denotes.  Go holds
a slice as a header that points into a backing array, and assigning a struct
copies its headers, not its arrays.  The definitions below follow `Add` and
`Get` at that level. -/

/-- A Go slice header: which backing array it points into, at which offset,
and how many elements it spans. -/
structure SliceHeader where
  array : Nat
  offset : Nat
  len : Nat
deriving DecidableEq, Repr

/-- The backing arrays of the program, by address: those of `[]string` and
those of `[]float64`. -/
structure Memory where
  strings : Nat → List String
  floats : Nat → List Float64

/-- The elements a `[]string` denotes in a memory; `none` is the nil slice. -/
def Memory.readStrings (mem : Memory) : Option SliceHeader → Slice String
  | none => none
  | some h => some (((mem.strings h.array).drop h.offset).take h.len)

/-- The elements a `[]float64` denotes in a memory; `none` is the nil slice. -/
def Memory.readFloats (mem : Memory) : Option SliceHeader → Slice Float64
  | none => none
  | some h => some (((mem.floats h.array).drop h.offset).take h.len)

/-- The statement `s[i] = x` on a `[]string` with header `h`; an index out of
range panics and nothing is written. -/
def Memory.writeString (mem : Memory) (h : SliceHeader) (i : Nat) (x : String) : Memory :=
  if i < h.len then
    let updated := (mem.strings h.array).set (h.offset + i) x
    { mem with strings := Function.update mem.strings h.array updated }
  else
    mem

/-- The statement `s[i] = x` on a `[]float64` with header `h`; an index out of
range panics and nothing is written. -/
def Memory.writeFloat (mem : Memory) (h : SliceHeader) (i : Nat) (x : Float64) : Memory :=
  if i < h.len then
    let updated := (mem.floats h.array).set (h.offset + i) x
    { mem with floats := Function.update mem.floats h.array updated }
  else
    mem

/-- The struct `api.WeeklyForecast` as the program holds it: three slice
headers. -/
structure Aliased.WeeklyForecast where
  Time : Option SliceHeader
  Temperature2MMax : Option SliceHeader
  Temperature2MMin : Option SliceHeader
deriving DecidableEq, Repr

/-- The composite literal `api.WeeklyForecast{}`: all three slices nil. -/
def Aliased.WeeklyForecast.empty : Aliased.WeeklyForecast := ⟨none, none, none⟩

/-- The sequences a forecast denotes in a memory. -/
def Aliased.WeeklyForecast.view (f : Aliased.WeeklyForecast) (mem : Memory) :
    Weather.WeeklyForecast :=
  ⟨mem.readStrings f.Time, mem.readFloats f.Temperature2MMax,
    mem.readFloats f.Temperature2MMin⟩

/-- The struct `Value` of `cache/cache.go`, its forecast held by headers. -/
structure Aliased.Value where
  timestamp : Int
  weeklyForecast : Aliased.WeeklyForecast
  currentTemp : Float64
deriving DecidableEq, Repr

/-- The struct `Cache` of `cache/cache.go`, its forecasts held by headers. -/
structure Aliased.Cache where
  data : Finmap (fun _ : String => Aliased.Value)
  entryTTL : Int

/-- The method `Add`: the struct is assigned as it is, so the entry holds the
caller's three headers. -/
def Aliased.Cache.Add (c : Aliased.Cache) (now : Int) (key : String) (currentTemp : Float64)
    (weeklyForecast : Aliased.WeeklyForecast) : Aliased.Cache :=
  let value : Aliased.Value :=
    { timestamp := now, weeklyForecast := weeklyForecast, currentTemp := currentTemp }
  { c with data := c.data.insert key value }

/-- The method `Get`: the struct is returned as it is, so the caller receives
the entry's three headers. -/
def Aliased.Cache.Get (c : Aliased.Cache) (now : Int) (key : String) :
    (Float64 × Aliased.WeeklyForecast × Bool) × Aliased.Cache :=
  match c.data.lookup key with
  | none => ((Float64.zero, Aliased.WeeklyForecast.empty, false), c)
  | some value =>
    if now - value.timestamp > c.entryTTL then
      ((Float64.zero, Aliased.WeeklyForecast.empty, false),
        { c with data := c.data.erase key })
    else
      ((value.currentTemp, value.weeklyForecast, true), c)

/-! ## The critical sections of Get

`Get` holds the read lock for the lookup only; the comparison with the ttl and
the call of `Delete` come after `RUnlock`.  Between the two parts another
goroutine may run a whole operation. -/

/-- The part of `Get` under `RLock`: the lookup `c.data[key]`. -/
def Cache.GetRead (c : Cache) (key : String) : Option Value :=
  c.data.lookup key

/-- The part of `Get` after `RUnlock`, on the cache as it is by then: `seen`
is what the lookup gave, the ttl is read from the cache without a lock, and an
expired entry leads to `Delete`, which takes the write lock by itself. -/
def Cache.GetDecide (c : Cache) (now : Int) (key : String) (seen : Option Value) :
    (Float64 × WeeklyForecast × Bool) × Cache :=
  match seen with
  | none => ((Float64.zero, WeeklyForecast.empty, false), c)
  | some value =>
    if now - value.timestamp > c.entryTTL then
      ((Float64.zero, WeeklyForecast.empty, false), c.Delete key)
    else
      ((value.currentTemp, value.weeklyForecast, true), c)

/-! ## Sequences of operations -/

/-- One call of a method of the cache, with the clock readings it takes. -/
inductive Op where
  | Get (now : Int) (key : String)
  | Delete (key : String)
  | SetEntryTTL (entryTTL : Int)
  | PurgeCache (clock : Nat → Int) (order : List String)
  | Add (now : Int) (key : String) (currentTemp : Float64) (weeklyForecast : WeeklyForecast)

/-- The call is an `Add` on the key `k`. -/
def Op.addsKey (k : String) : Op → Bool
  | Op.Add _ key _ _ => key == k
  | _ => false

/-- The cache after one call. -/
def Cache.apply (c : Cache) : Op → Cache
  | Op.Get now key => (c.Get now key).2
  | Op.Delete key => c.Delete key
  | Op.SetEntryTTL entryTTL => c.SetEntryTTL entryTTL
  | Op.PurgeCache clock order => c.PurgeCache clock order
  | Op.Add now key currentTemp weeklyForecast => c.Add now key currentTemp weeklyForecast

/-- The cache after a sequence of calls, first to last. -/
def Cache.run (c : Cache) (ops : List Op) : Cache :=
  ops.foldl Cache.apply c

/-! ## Sample data

The values used by `cache/cache_test.go` and `main_test.go`, for the concrete
instances of the theorems below. -/

/-- The constant `time.Second`, in nanoseconds. -/
def Second : Int := 1000000000

/-- The temperature `75.5` of the cache tests. -/
def sampleTemp : Float64 := ⟨4635013257122283520⟩

/-- The forecast of the cache tests: one day, maximum `75.5`, minimum `75.2`. -/
def sampleForecast : WeeklyForecast :=
  ⟨some ["2024-09-25"], some [⟨4635013257122283520⟩], some [⟨4634992146499030221⟩]⟩

/-- The state of `TestCache_Get` before the read: a ttl of one second and one
entry added at time 0. -/
def sampleGetCache : Cache :=
  (GetCacheInstance.SetEntryTTL Second).Add 0 "TestCache_Get" sampleTemp sampleForecast

/-- The state of `TestCache_PurgeCache` before the sweep: a ttl of one second,
a first key added at time 0 and a second one two seconds later. -/
def samplePurgeCache : Cache :=
  ((GetCacheInstance.SetEntryTTL Second).Add 0 "TestCache_PurgeCache" sampleTemp
    sampleForecast).Add (2 * Second) "TestCache_PurgeCache2" sampleTemp sampleForecast

/-- Two entries of the same age under a ttl of one second. -/
def sameAgeCache : Cache :=
  ((GetCacheInstance.SetEntryTTL Second).Add 0 "78758" sampleTemp sampleForecast).Add 0
    "78752" sampleTemp sampleForecast

/-- A clock that stands at one second during the whole scan. -/
def steadyClock : Nat → Int := fun _ => Second

/-- A clock that reads one second at the start of the scan and one
nanosecond more at every later reading. -/
def tickingClock : Nat → Int := fun i => if i = 0 then Second else Second + 1

/-- The canonical address of `main_test.go`. -/
def sampleAddress : String := "3001 Esperanza Crossing, Austin, TX 78758, USA"

/-- The coordinate `30.3985991` of `main_test.go`. -/
def sampleCoordinate : Float64 := ⟨4629249662655837964⟩

/-- The forecast served by the mock of `main_test.go`: current temperature
`78.6`, one day with maximum `97.6` and minimum `75.8`. -/
def sampleUpstream : ForecastResult :=
  { currentTemp := ⟨4635231400229234278⟩
    weeklyForecast :=
      ⟨some ["2024-09-19"], some [⟨4636568406368609894⟩], some [⟨4635034367745536819⟩]⟩
    err := none }

/-- The geocoding result of the success cases of `main_test.go`. -/
def sampleGeocode : GeocodeResult :=
  ⟨sampleAddress, sampleCoordinate, sampleCoordinate, none⟩

/-- A world in which both clients answer as the mocks of the success cases
of `main_test.go` do; the cache is read at `nowGet` and written at `nowAdd`. -/
def sampleWorld (nowGet nowAdd : Int) : World :=
  { AddressToCoordinates := fun _ _ _ => sampleGeocode
    GetForecast := fun _ _ _ => sampleUpstream
    nowGet := nowGet
    nowAdd := nowAdd }

/-- A cache that holds the sample forecast under the postal code of the
sample address, stamped at time 0, with the default ttl. -/
def warmCache : Cache :=
  GetCacheInstance.Add 0 "78758" sampleUpstream.currentTemp sampleUpstream.weeklyForecast

/-- The geocoding result of the case "Geocode API Failed" of `main_test.go`. -/
def failedGeocode : GeocodeResult :=
  ⟨"", Float64.zero, Float64.zero, some "received non-OK HTTP status: 404 Not Found"⟩

/-- A world whose geocoder answers 404, as in the case "Geocode API Failed"
of `main_test.go`. -/
def geocodeDownWorld : World :=
  { AddressToCoordinates := fun _ _ _ => failedGeocode
    GetForecast := fun _ _ _ => sampleUpstream
    nowGet := 0
    nowAdd := 0 }

/-- The geocoding result of the case "Forecast API Failed" of `main_test.go`. -/
def otherGeocode : GeocodeResult :=
  ⟨"3001 Esperanza Crossing, Austin, TX 78752, USA", sampleCoordinate, sampleCoordinate, none⟩

/-- A world whose forecast client answers 404, as in the case "Forecast API
Failed" of `main_test.go`. -/
def forecastDownWorld : World :=
  { AddressToCoordinates := fun _ _ _ => otherGeocode
    GetForecast := fun _ _ _ =>
      ⟨Float64.zero, WeeklyForecast.empty, some "received non-OK HTTP status: 404 Not Found"⟩
    nowGet := 0
    nowAdd := 0 }

/-- A run in which the entry is hit twice within the ttl, with a sweep in
between, and the ttl is then raised to two seconds. -/
def sampleOps : List Op :=
  [Op.Get Second "TestCache_Get", Op.PurgeCache steadyClock ["TestCache_Get"],
    Op.Get Second "TestCache_Get", Op.SetEntryTTL (2 * Second)]

/-- An address whose first state and code are separated by a tab and whose
second are separated by a space. -/
def tabAddress : String := "TX\t11111 CA 22222"

/-- An address whose state and code are separated by a tab. -/
def tabOnlyAddress : String := "Austin, TX\t78758, USA"

/-- The address without a postal code of the specification's example. -/
def plainAddress : String := "no postal code here"

/-- A memory with the three arrays of the forecast of the cache tests, at the
addresses 0, 1 and 2. -/
def sampleMemory : Memory :=
  { strings := fun a => if a = 0 then ["2024-09-25"] else []
    floats := fun a =>
      if a = 1 then [⟨4635013257122283520⟩]
      else if a = 2 then [⟨4634992146499030221⟩] else [] }

/-- The forecast of the cache tests as three headers into `sampleMemory`. -/
def sampleHeaders : Aliased.WeeklyForecast :=
  ⟨some ⟨0, 0, 1⟩, some ⟨1, 0, 1⟩, some ⟨2, 0, 1⟩⟩

/-- The state of `TestCache_Add` after the `Add` at time 0, with the default
ttl. -/
def sampleAliasedCache : Aliased.Cache :=
  Aliased.Cache.Add ⟨∅, 30 * Minute⟩ 0 "TestCache_Add" sampleTemp sampleHeaders

/-- An accepted geocoding result without a postal code, at latitude `48.8566`
and longitude `2.3522`. -/
def parisGeocode : GeocodeResult :=
  ⟨"Paris, France", ⟨4632072772483080310⟩, ⟨4612479102321767848⟩, none⟩

/-- Another accepted geocoding result without a postal code, at latitude
`52.52` and longitude `13.405`. -/
def berlinGeocode : GeocodeResult :=
  ⟨"Berlin, Germany", ⟨4632588350197921219⟩, ⟨4623735962180371087⟩, none⟩

/-! ## Lemmas on the map -/

/-- Deleting a key that is not in the map leaves the map as it is. -/
theorem erase_absent (m : Finmap (fun _ : String => Value)) (k : String)
    (h : m.lookup k = none) : m.erase k = m := by
  apply Finmap.ext_lookup
  intro x
  by_cases hx : x = k
  · subst hx
    rw [Finmap.lookup_erase, h]
  · rw [Finmap.lookup_erase_ne hx]

/-- Unfolding of `Get` on an absent key. -/
theorem Get_of_lookup_none (c : Cache) (now : Int) (k : String)
    (h : c.data.lookup k = none) : c.Get now k = (notFound, c) := by
  simp [Cache.Get, h, notFound]

/-- Unfolding of `Get` on an expired entry. -/
theorem Get_of_expired (c : Cache) (now : Int) (k : String) (v : Value)
    (h : c.data.lookup k = some v) (hexp : now - v.timestamp > c.entryTTL) :
    c.Get now k = (notFound, c.Delete k) := by
  simp [Cache.Get, h, hexp, notFound]

/-- Unfolding of `Get` on a valid entry. -/
theorem Get_of_valid (c : Cache) (now : Int) (k : String) (v : Value)
    (h : c.data.lookup k = some v) (hval : now - v.timestamp ≤ c.entryTTL) :
    c.Get now k = ((v.currentTemp, v.weeklyForecast, true), c) := by
  have : ¬ now - v.timestamp > c.entryTTL := not_lt.mpr hval
  simp [Cache.Get, h, this]

/-- A read within the ttl of the entry just added hits, and leaves the state
as it is. -/
theorem add_get_hit (c : Cache) (k : String) (t : Float64) (f : WeeklyForecast)
    (t0 t1 : Int) (hwin : t1 - t0 ≤ c.entryTTL) :
    (c.Add t0 k t f).Get t1 k = ((t, f, true), c.Add t0 k t f) := by
  have hl : (c.Add t0 k t f).data.lookup k = some ⟨t0, f, t⟩ := by
    simp [Cache.Add, Finmap.lookup_insert]
  exact Get_of_valid (c.Add t0 k t f) t1 k ⟨t0, f, t⟩ hl hwin

/-- A miss of `Get`, for either reason, returns the not-found triple and
leaves the state that `Delete` produces. -/
theorem Get_of_miss (c : Cache) (now : Int) (k : String)
    (h : ∀ v, c.data.lookup k = some v → now - v.timestamp > c.entryTTL) :
    c.Get now k = (notFound, c.Delete k) := by
  cases hl : c.data.lookup k with
  | none =>
    rw [Get_of_lookup_none c now k hl]
    simp [Cache.Delete, erase_absent c.data k hl]
  | some v => exact Get_of_expired c now k v hl (h v hl)

/-- The scan never changes the ttl. -/
theorem purgeLoop_entryTTL (clock : Nat → Int) (keys : List String) :
    ∀ (i : Nat) (c : Cache), (purgeLoop clock keys i c).entryTTL = c.entryTTL := by
  induction keys with
  | nil => intro i c; rfl
  | cons k keys ih =>
    intro i c
    unfold purgeLoop
    split
    · exact ih i c
    · split
      · rw [ih]
      · exact ih (i + 1) c

/-- The scan, entry by entry: when the keys to visit are distinct and all
present, the key at position `j` is kept exactly when reading `i + j` is not
after its timestamp plus the ttl, and keys not visited are left alone. -/
theorem purgeLoop_lookup (clock : Nat → Int) (keys : List String) :
    ∀ (i : Nat) (c : Cache), keys.Nodup → (∀ k ∈ keys, c.data.lookup k ≠ none) →
    ∀ k, (purgeLoop clock keys i c).data.lookup k =
      if k ∈ keys then
        (c.data.lookup k).filter
          (fun v => decide (clock (i + keys.indexOf k) ≤ v.timestamp + c.entryTTL))
      else c.data.lookup k := by
  induction keys with
  | nil => intro i c _ _ k; simp [purgeLoop]
  | cons k0 keys ih =>
    intro i c hnd hall k
    have hk0 : k0 ∉ keys := (List.nodup_cons.mp hnd).1
    have hnd2 : keys.Nodup := (List.nodup_cons.mp hnd).2
    obtain ⟨v, hv⟩ := Option.ne_none_iff_exists'.mp (hall k0 (List.mem_cons_self _ _))
    unfold purgeLoop
    simp only [hv]
    by_cases hexp : clock i > v.timestamp + c.entryTTL
    · simp only [hexp, if_true]
      have hall2 : ∀ k ∈ keys, (Finmap.erase k0 c.data).lookup k ≠ none := by
        intro k1 hk1
        have hne : k1 ≠ k0 := fun h => hk0 (h ▸ hk1)
        rw [Finmap.lookup_erase_ne hne]
        exact hall k1 (List.mem_cons_of_mem _ hk1)
      rw [ih (i + 1) _ hnd2 hall2 k]
      by_cases hk : k = k0
      · subst hk
        simp [hk0, Finmap.lookup_erase, hv, Option.filter, not_le.mpr hexp]
      · have hk2 : k0 ≠ k := fun h => hk h.symm
        simp only [List.mem_cons, hk, false_or, Finmap.lookup_erase_ne hk,
          List.indexOf_cons_ne _ hk2]
        have : i + 1 + List.indexOf k keys = i + (List.indexOf k keys).succ := by omega
        rw [this]
    · simp only [hexp, if_false]
      have hall2 : ∀ k ∈ keys, c.data.lookup k ≠ none :=
        fun k1 hk1 => hall k1 (List.mem_cons_of_mem _ hk1)
      rw [ih (i + 1) _ hnd2 hall2 k]
      by_cases hk : k = k0
      · subst hk
        simp [hk0, hv, Option.filter, not_lt.mp hexp]
      · have hk2 : k0 ≠ k := fun h => hk h.symm
        simp only [List.mem_cons, hk, false_or, List.indexOf_cons_ne _ hk2]
        have : i + 1 + List.indexOf k keys = i + (List.indexOf k keys).succ := by omega
        rw [this]

/-- A visiting order lists exactly the keys that have an entry. -/
theorem IsRangeOrder.mem_iff {order : List String} {c : Cache} (h : IsRangeOrder order c)
    (k : String) : k ∈ order ↔ c.data.lookup k ≠ none := by
  have h2 := h.2
  rw [← List.mem_toFinset, h2, Finmap.mem_keys, Ne, Finmap.lookup_eq_none, not_not]

/-- The sweep, entry by entry: the entry of `k` survives exactly when the
reading taken at its turn is not after its timestamp plus the ttl. -/
theorem PurgeCache_lookup (c : Cache) (clock : Nat → Int) (order : List String)
    (horder : IsRangeOrder order c) (k : String) :
    (c.PurgeCache clock order).data.lookup k =
      (c.data.lookup k).filter
        (fun v => decide (clock (order.indexOf k) ≤ v.timestamp + c.entryTTL)) := by
  have hall : ∀ k ∈ order, c.data.lookup k ≠ none := fun k hk => (horder.mem_iff k).mp hk
  unfold Cache.PurgeCache
  rw [purgeLoop_lookup clock order 0 c horder.1 hall k]
  by_cases hk : k ∈ order
  · rw [if_pos hk, Nat.zero_add]
  · rw [if_neg hk]
    have : c.data.lookup k = none := by
      by_contra hne
      exact hk ((horder.mem_iff k).mpr hne)
    rw [this]
    rfl

/-- The two keys of `samplePurgeCache`, in either order, are a visiting order. -/
theorem samplePurgeCache_order :
    IsRangeOrder ["TestCache_PurgeCache", "TestCache_PurgeCache2"] samplePurgeCache := by
  refine ⟨by decide, ?_⟩
  ext k
  simp [samplePurgeCache, Cache.Add, Cache.SetEntryTTL, GetCacheInstance, Finmap.mem_keys,
    Finmap.mem_insert, Finmap.not_mem_empty]
  tauto

/-- The two keys of `sameAgeCache`, in either order, are a visiting order. -/
theorem sameAgeCache_order :
    IsRangeOrder ["78758", "78752"] sameAgeCache ∧
    IsRangeOrder ["78752", "78758"] sameAgeCache := by
  constructor
  · refine ⟨by decide, ?_⟩
    ext k
    simp [sameAgeCache, Cache.Add, Cache.SetEntryTTL, GetCacheInstance, Finmap.mem_keys,
      Finmap.mem_insert, Finmap.not_mem_empty]
    tauto
  · refine ⟨by decide, ?_⟩
    ext k
    simp [sameAgeCache, Cache.Add, Cache.SetEntryTTL, GetCacheInstance, Finmap.mem_keys,
      Finmap.mem_insert, Finmap.not_mem_empty]

/-- An accepted geocoding result fails the guard at the top of `getForecast`. -/
theorem accepted_guard (g : GeocodeResult) (h : g.accepted) :
    (g.err.isSome || g.fullAddress == "" || g.latitude.isZero || g.longitude.isZero)
      = false := by
  obtain ⟨h1, h2, h3, h4⟩ := h
  simp [h1, h2, h3, h4]

/-- The run of `getForecast` when the geocoding result is rejected. -/
theorem getForecast_of_rejected (w : World) (address : String) (c : Cache)
    (geocodeURL forecastURL apiKey : String) (g : GeocodeResult)
    (hgeo : w.AddressToCoordinates address geocodeURL apiKey = g)
    (hrej : (g.err.isSome || g.fullAddress == "" || g.latitude.isZero
      || g.longitude.isZero) = true) :
    getForecast w address c geocodeURL forecastURL apiKey =
      { ret := ⟨"", Float64.zero, WeeklyForecast.empty, false,
          Errorf "error retrieving coordinates: " g.err⟩
        cache := c
        calls := [Call.AddressToCoordinates address geocodeURL apiKey] } := by
  unfold getForecast
  simp only [hgeo]
  rw [if_pos hrej]

/-- The run of `getForecast` when geocoding is accepted and the cache hits. -/
theorem getForecast_of_hit (w : World) (address : String) (c c2 : Cache)
    (geocodeURL forecastURL apiKey : String) (g : GeocodeResult)
    (temp : Float64) (fc : WeeklyForecast)
    (hgeo : w.AddressToCoordinates address geocodeURL apiKey = g) (hacc : g.accepted)
    (hget : c.Get w.nowGet (getPostalCode g.fullAddress) = ((temp, fc, true), c2)) :
    getForecast w address c geocodeURL forecastURL apiKey =
      { ret := ⟨g.fullAddress, temp, fc, true, none⟩
        cache := c2
        calls := [Call.AddressToCoordinates address geocodeURL apiKey,
          Call.CacheGet (getPostalCode g.fullAddress)] } := by
  unfold getForecast
  simp only [hgeo]
  rw [if_neg (by rw [accepted_guard g hacc]; exact Bool.false_ne_true), hget]
  rfl

/-- The run of `getForecast` when geocoding is accepted and the cache misses. -/
theorem getForecast_of_miss (w : World) (address : String) (c : Cache)
    (geocodeURL forecastURL apiKey : String) (g : GeocodeResult) (r : ForecastResult)
    (hgeo : w.AddressToCoordinates address geocodeURL apiKey = g) (hacc : g.accepted)
    (hmiss : ∀ v, c.data.lookup (getPostalCode g.fullAddress) = some v →
      w.nowGet - v.timestamp > c.entryTTL)
    (hfc : w.GetForecast g.latitude g.longitude forecastURL = r) :
    getForecast w address c geocodeURL forecastURL apiKey =
      if r.err.isSome then
        { ret := ⟨"", Float64.zero, WeeklyForecast.empty, false,
            Errorf "error retrieving forecast: " r.err⟩
          cache := c.Delete (getPostalCode g.fullAddress)
          calls := [Call.AddressToCoordinates address geocodeURL apiKey,
            Call.CacheGet (getPostalCode g.fullAddress),
            Call.GetForecast g.latitude g.longitude forecastURL] }
      else
        { ret := ⟨g.fullAddress, r.currentTemp, r.weeklyForecast, false, none⟩
          cache := (c.Delete (getPostalCode g.fullAddress)).Add w.nowAdd
            (getPostalCode g.fullAddress) r.currentTemp r.weeklyForecast
          calls := [Call.AddressToCoordinates address geocodeURL apiKey,
            Call.CacheGet (getPostalCode g.fullAddress),
            Call.GetForecast g.latitude g.longitude forecastURL,
            Call.CacheAdd (getPostalCode g.fullAddress) r.currentTemp r.weeklyForecast] } := by
  unfold getForecast
  simp only [hgeo]
  rw [if_neg (by rw [accepted_guard g hacc]; exact Bool.false_ne_true),
    Get_of_miss c w.nowGet _ hmiss, hfc]
  rfl

/-- The two sample geocoding results are accepted. -/
theorem sampleGeocode_accepted : sampleGeocode.accepted ∧ otherGeocode.accepted := by
  constructor <;> exact ⟨rfl, by decide, by decide, by decide⟩

/-! ## Lemmas on the key derivation -/

/-- An uppercase ASCII letter is a word character. -/
theorem isWordChar_of_isUpper (c : Char) (h : c.isUpper = true) : isWordChar c = true := by
  simp [isWordChar, Char.isAlphanum, Char.isAlpha, h]

/-- An ASCII digit is a word character. -/
theorem isWordChar_of_isDigit (c : Char) (h : c.isDigit = true) : isWordChar c = true := by
  simp [isWordChar, Char.isAlphanum, h]

/-- The matcher in terms of the specification's pattern, at the head of a text. -/
theorem matchHere_eq (prev : Option Char) (l : List Char) :
    matchHere prev l =
      if (!(prev.any isWordChar) && patternAt isPerlSpace l 0
          && !((l[8]?).any isWordChar)) = true then some (l.take 8) else none := by
  rcases l with _ | ⟨a, _ | ⟨b, _ | ⟨s, _ | ⟨d1, _ | ⟨d2, _ | ⟨d3, _ | ⟨d4, _ | ⟨d5, rest⟩⟩⟩⟩⟩⟩⟩⟩ <;>
    try simp [matchHere, patternAt]
  by_cases ha : a.isUpper = true
  · by_cases hd : d5.isDigit = true
    · have hwa := isWordChar_of_isUpper a ha
      have hwd := isWordChar_of_isDigit d5 hd
      cases hp : prev.any isWordChar <;> cases hr : rest.head?.any isWordChar <;>
        cases hb : b.isUpper <;> cases hs : isPerlSpace s <;> cases h1 : d1.isDigit <;>
        cases h2 : d2.isDigit <;> cases h3 : d3.isDigit <;> cases h4 : d4.isDigit <;>
        simp_all [matchHere, patternAt, atWordBoundary, List.head?_eq_getElem?]
    · simp [matchHere, patternAt, hd]
  · simp [matchHere, patternAt, ha]


/-- The matcher at position `i` succeeds exactly on a standalone occurrence
with a separator of the class `\s`, and then yields the eight characters. -/
theorem matchHere_at (cs : List Char) (i : Nat) :
    matchHere (prevAt cs i) (cs.drop i) =
      if standaloneAt isPerlSpace cs i = true then some ((cs.drop i).take 8) else none := by
  rw [matchHere_eq]
  simp [standaloneAt, patternAt, List.getElem?_drop]

/-- A match at the head of the text is what the search returns. -/
theorem findFrom_of_matchHere (prev : Option Char) (l m : List Char)
    (h : matchHere prev l = some m) : findFrom prev l = m := by
  cases l with
  | nil => simp [matchHere] at h
  | cons c cs => simp [findFrom, h]

/-- The search moves past every position at which the matcher fails. -/
theorem findFrom_skip (l : List Char) :
    ∀ (prev : Option Char) (i : Nat),
      (∀ j, j < i → matchHere (if j = 0 then prev else l[j - 1]?) (l.drop j) = none) →
      findFrom prev l = findFrom (if i = 0 then prev else l[i - 1]?) (l.drop i) := by
  induction l with
  | nil =>
    intro prev i _
    simp [findFrom]
  | cons c cs ih =>
    intro prev i h
    cases i with
    | zero => simp
    | succ i =>
      have h0 := h 0 (Nat.succ_pos i)
      simp only [if_true, List.drop_zero] at h0
      have hstep : findFrom prev (c :: cs) = findFrom (some c) cs := by
        simp [findFrom, h0]
      rw [hstep, ih (some c) i]
      · cases i with
        | zero => simp
        | succ i => simp
      · intro j hj
        have hj1 := h (j + 1) (Nat.succ_lt_succ hj)
        cases j with
        | zero => simpa using hj1
        | succ j => simpa using hj1

/-- An uppercase ASCII letter takes one byte. -/
theorem utf8Size_of_isUpper (c : Char) (h : c.isUpper = true) : c.utf8Size = 1 := by
  simp only [Char.isUpper, Bool.and_eq_true, decide_eq_true_eq] at h
  have h1 : c.val.toNat ≤ 90 := h.2
  have h2 : c.val ≤ 127 := by
    rw [UInt32.le_def]
    exact (show c.val.toNat ≤ 127 by omega)
  simp [Char.utf8Size, h2]

/-- An ASCII digit takes one byte. -/
theorem utf8Size_of_isDigit (c : Char) (h : c.isDigit = true) : c.utf8Size = 1 := by
  simp only [Char.isDigit, Bool.and_eq_true, decide_eq_true_eq] at h
  have h1 : c.val.toNat ≤ 57 := h.2
  have h2 : c.val ≤ 127 := by
    rw [UInt32.le_def]
    exact (show c.val.toNat ≤ 127 by omega)
  simp [Char.utf8Size, h2]

/-- A character of the class `\s` takes one byte. -/
theorem utf8Size_of_isPerlSpace (c : Char) (h : isPerlSpace c = true) : c.utf8Size = 1 := by
  have h2 : c.toNat ≤ 127 := by
    simp only [isPerlSpace, Bool.or_eq_true, beq_iff_eq] at h
    omega
  have h3 : c.val ≤ 127 := by
    rw [UInt32.le_def]
    exact h2
  simp [Char.utf8Size, h3]


/-- The shape of a successful match. -/
theorem matchHere_some (prev : Option Char) (l m : List Char)
    (h : matchHere prev l = some m) :
    ∃ a b s d1 d2 d3 d4 d5 rest, l = a :: b :: s :: d1 :: d2 :: d3 :: d4 :: d5 :: rest ∧
      m = [a, b, s, d1, d2, d3, d4, d5] ∧ a.isUpper = true ∧ b.isUpper = true ∧
      isPerlSpace s = true ∧ d1.isDigit = true ∧ d2.isDigit = true ∧ d3.isDigit = true ∧
      d4.isDigit = true ∧ d5.isDigit = true := by
  rcases l with _ | ⟨a, _ | ⟨b, _ | ⟨s, _ | ⟨d1, _ | ⟨d2, _ | ⟨d3, _ | ⟨d4, _ | ⟨d5, rest⟩⟩⟩⟩⟩⟩⟩⟩ <;>
    try (simp [matchHere] at h; done)
  refine ⟨a, b, s, d1, d2, d3, d4, d5, rest, rfl, ?_⟩
  simp only [matchHere] at h
  split at h
  · rename_i hc
    simp only [Bool.and_eq_true] at hc
    simp only [Option.some.injEq] at h
    exact ⟨h.symm, by tauto⟩
  · simp at h

/-- When the search returns a match, `getPostalCode` returns its five digits:
the match is eight bytes long and the slice starts at byte three. -/
theorem postal_of_match (a b s d1 d2 d3 d4 d5 : Char) (ha : a.isUpper = true)
    (hb : b.isUpper = true) (hs : isPerlSpace s = true) (h1 : d1.isDigit = true)
    (h2 : d2.isDigit = true) (h3 : d3.isDigit = true) (h4 : d4.isDigit = true)
    (h5 : d5.isDigit = true) (address : String)
    (hfind : FindString address = String.mk [a, b, s, d1, d2, d3, d4, d5]) :
    getPostalCode address = String.mk [d1, d2, d3, d4, d5] := by
  have hl : String.utf8Len [a, b, s] = 3 := by
    simp [utf8Size_of_isUpper a ha, utf8Size_of_isUpper b hb, utf8Size_of_isPerlSpace s hs]
  have hm : String.utf8Len [d1, d2, d3, d4, d5] = 5 := by
    simp [utf8Size_of_isDigit _ h1, utf8Size_of_isDigit _ h2, utf8Size_of_isDigit _ h3,
      utf8Size_of_isDigit _ h4, utf8Size_of_isDigit _ h5]
  have hall : String.utf8Len [a, b, s, d1, d2, d3, d4, d5] = 8 := by
    have : [a, b, s, d1, d2, d3, d4, d5] = [a, b, s] ++ [d1, d2, d3, d4, d5] := rfl
    rw [this, String.utf8Len_append, hl, hm]
  have hext := String.extract_of_valid [a, b, s] [d1, d2, d3, d4, d5] []
  rw [hl, hm] at hext
  simp only [List.append_nil] at hext
  unfold getPostalCode
  simp only [hfind, String.utf8ByteSize_mk, hall]
  exact hext


/-- The key is the five digits of the leftmost standalone occurrence with a
separator of the class `\s`. -/
theorem getPostalCode_of_leftmost (address : String) (i : Nat)
    (hocc : standaloneAt isPerlSpace address.data i = true)
    (hleft : ∀ j, j < i → standaloneAt isPerlSpace address.data j = false) :
    getPostalCode address = String.mk ((address.data.drop (i + 3)).take 5) := by
  have hskip := findFrom_skip address.data none i (by
    intro j hj
    have hm := matchHere_at address.data j
    rw [hleft j hj] at hm
    simpa [prevAt] using hm)
  have hm := matchHere_at address.data i
  rw [if_pos hocc] at hm
  have hfind : findFrom none address.data = (address.data.drop i).take 8 := by
    rw [hskip]
    exact findFrom_of_matchHere _ _ _ hm
  obtain ⟨a, b, s, d1, d2, d3, d4, d5, rest, hl, hmm, ha, hb, hs, h1, h2, h3, h4, h5⟩ :=
    matchHere_some _ _ _ hm
  have hdig : (address.data.drop (i + 3)).take 5 = [d1, d2, d3, d4, d5] := by
    have : address.data.drop (i + 3) = (address.data.drop i).drop 3 := by
      rw [List.drop_drop, Nat.add_comm]
    rw [this, hl]
    rfl
  rw [hdig]
  apply postal_of_match a b s d1 d2 d3 d4 d5 ha hb hs h1 h2 h3 h4 h5
  unfold FindString
  rw [hfind, hmm]

/-- Without a standalone occurrence the key is empty. -/
theorem getPostalCode_of_none (address : String)
    (hnone : ∀ j, j < address.data.length → standaloneAt isPerlSpace address.data j = false) :
    getPostalCode address = "" := by
  have hskip := findFrom_skip address.data none address.data.length (by
    intro j hj
    have hm := matchHere_at address.data j
    rw [hnone j hj] at hm
    simpa [prevAt] using hm)
  have hfind : findFrom none address.data = [] := by
    rw [hskip, List.drop_length]
    simp [findFrom]
  unfold getPostalCode FindString
  rw [hfind]
  rfl

/-! ## The cache contract -/

/-- C1. Cache round trip: whatever the cache held before, `Add(k, t, f)` at
time `t0` followed by `Get(k)` at a time `t1` with `t1 - t0 ≤ ttl` returns
`(t, f, true)` and leaves the cache as `Add` left it. -/
theorem add_get_round_trip (c : Cache) (k : String) (t : Float64) (f : WeeklyForecast)
    (t0 t1 : Int) (hwin : t1 - t0 ≤ c.entryTTL) :
    (c.Add t0 k t f).Get t1 k = ((t, f, true), c.Add t0 k t f) := by
  have hl : (c.Add t0 k t f).data.lookup k = some ⟨t0, f, t⟩ := by
    simp [Cache.Add, Finmap.lookup_insert]
  exact Get_of_valid (c.Add t0 k t f) t1 k ⟨t0, f, t⟩ hl hwin

/-- Witness of C1: an entry added at time 5 and read at time 6 under the
default ttl. -/
theorem add_get_round_trip_witness :
    (6 : Int) - 5 ≤ GetCacheInstance.entryTTL ∧
    (GetCacheInstance.Add 5 "78758" ⟨7⟩ WeeklyForecast.empty).Get 6 "78758"
      = ((⟨7⟩, WeeklyForecast.empty, true),
          GetCacheInstance.Add 5 "78758" ⟨7⟩ WeeklyForecast.empty) :=
  ⟨by decide, add_get_round_trip GetCacheInstance "78758" ⟨7⟩ WeeklyForecast.empty 5 6
    (by decide)⟩

/-- C2. Expiry on read: when `k` is absent, or its entry is older than the
ttl, `Get(k)` returns `(0, WeeklyForecast{}, false)`; afterwards the map has
no entry for `k`, every other entry and the ttl are as before, and a second
`Get(k)` at any time misses again.  An absent key leaves the whole state
unchanged; an expired one leaves the state `Delete(k)` produces. -/
theorem get_absent_or_expired (c : Cache) (k : String) (now : Int)
    (h : c.data.lookup k = none ∨
      ∃ v, c.data.lookup k = some v ∧ now - v.timestamp > c.entryTTL) :
    (c.Get now k).1 = (Float64.zero, WeeklyForecast.empty, false) ∧
    (c.Get now k).2.data.lookup k = none ∧
    (∀ k2, k2 ≠ k → (c.Get now k).2.data.lookup k2 = c.data.lookup k2) ∧
    (c.Get now k).2.entryTTL = c.entryTTL ∧
    (∀ later, ((c.Get now k).2.Get later k).1 = (Float64.zero, WeeklyForecast.empty, false)) ∧
    (c.data.lookup k = none → (c.Get now k).2 = c) ∧
    (c.data.lookup k ≠ none → (c.Get now k).2 = c.Delete k) := by
  have hpost : (c.Get now k).1 = notFound ∧ (c.Get now k).2 = c.Delete k := by
    rcases h with h | ⟨v, hv, hexp⟩
    · rw [Get_of_lookup_none c now k h]
      refine ⟨rfl, ?_⟩
      simp [Cache.Delete, erase_absent c.data k h]
    · rw [Get_of_expired c now k v hv hexp]
      exact ⟨rfl, rfl⟩
  obtain ⟨h1, h2⟩ := hpost
  have hgone : (c.Delete k).data.lookup k = none := by
    simp [Cache.Delete, Finmap.lookup_erase]
  refine ⟨h1, ?_, ?_, ?_, ?_, ?_, ?_⟩
  · rw [h2]; exact hgone
  · intro k2 hk
    rw [h2]
    simp [Cache.Delete, Finmap.lookup_erase_ne hk]
  · rw [h2]; rfl
  · intro later
    rw [h2, Get_of_lookup_none (c.Delete k) later k hgone]
    rfl
  · intro hnone
    rw [h2]
    simp [Cache.Delete, erase_absent c.data k hnone]
  · intro _
    exact h2

/-- Witness of C2: the expired read of `TestCache_Get`, two seconds after an
insertion under a ttl of one second. -/
theorem get_absent_or_expired_witness :
    (sampleGetCache.Get (2 * Second) "TestCache_Get").1
      = (Float64.zero, WeeklyForecast.empty, false) ∧
    (sampleGetCache.Get (2 * Second) "TestCache_Get").2.data.lookup "TestCache_Get" = none :=
  have h := get_absent_or_expired sampleGetCache "TestCache_Get" (2 * Second)
    (Or.inr ⟨⟨0, sampleForecast, sampleTemp⟩,
      by simp [sampleGetCache, Cache.Add, Finmap.lookup_insert],
      by simp [sampleGetCache, Cache.Add, Cache.SetEntryTTL, Second]⟩)
  ⟨h.1, h.2.1⟩

/-- C3. A ttl change is retroactive: after `Add(k, t, f)` at `t0` and
`SetEntryTTL(T2)`, a `Get(k)` at `t1` finds the entry exactly when
`t1 - t0 ≤ T2`, whatever the ttl was at insertion, while the same read
without the change is decided by the old ttl; `SetEntryTTL` leaves the map
untouched. -/
theorem ttl_change_retroactive (c : Cache) (k : String) (t : Float64) (f : WeeklyForecast)
    (t0 t1 T2 : Int) :
    ((c.Add t0 k t f).SetEntryTTL T2).data = (c.Add t0 k t f).data ∧
    ((c.Add t0 k t f).SetEntryTTL T2).entryTTL = T2 ∧
    (((c.Add t0 k t f).SetEntryTTL T2).Get t1 k).1
      = (if t1 - t0 ≤ T2 then (t, f, true)
         else (Float64.zero, WeeklyForecast.empty, false)) ∧
    ((c.Add t0 k t f).Get t1 k).1
      = (if t1 - t0 ≤ c.entryTTL then (t, f, true)
         else (Float64.zero, WeeklyForecast.empty, false)) := by
  have hl : (c.Add t0 k t f).data.lookup k = some ⟨t0, f, t⟩ := by
    simp [Cache.Add, Finmap.lookup_insert]
  have hl2 : ((c.Add t0 k t f).SetEntryTTL T2).data.lookup k = some ⟨t0, f, t⟩ := hl
  refine ⟨rfl, rfl, ?_, ?_⟩
  · by_cases hv : t1 - t0 ≤ T2
    · rw [Get_of_valid _ t1 k _ hl2 hv, if_pos hv]
    · rw [Get_of_expired _ t1 k _ hl2 (not_le.mp hv), if_neg hv]
      rfl
  · by_cases hv : t1 - t0 ≤ c.entryTTL
    · rw [Get_of_valid _ t1 k _ hl hv, if_pos hv]
    · rw [Get_of_expired _ t1 k _ hl (not_le.mp hv), if_neg hv]
      rfl

/-- C4. Purge exactness: with the clock standing at `now` during the sweep and
the keys visited in any order, the keys left by `PurgeCache` are exactly the
prior keys whose entry has `now - createdAt ≤ ttl`, every entry left is the
entry that was there before, and the ttl is unchanged. -/
theorem purge_exact (c : Cache) (now : Int) (order : List String)
    (horder : IsRangeOrder order c) :
    (∀ k, k ∈ (c.PurgeCache (fun _ => now) order).data ↔
      ∃ v, c.data.lookup k = some v ∧ now - v.timestamp ≤ c.entryTTL) ∧
    (∀ k v, (c.PurgeCache (fun _ => now) order).data.lookup k = some v →
      c.data.lookup k = some v) ∧
    (c.PurgeCache (fun _ => now) order).entryTTL = c.entryTTL := by
  have hlook := PurgeCache_lookup c (fun _ => now) order horder
  refine ⟨?_, ?_, purgeLoop_entryTTL _ order 0 c⟩
  · intro k
    rw [Finmap.mem_iff, hlook k]
    cases hc : c.data.lookup k with
    | none => simp [Option.filter]
    | some v =>
      by_cases hv : now ≤ v.timestamp + c.entryTTL
      · have hv2 : now - v.timestamp ≤ c.entryTTL := by omega
        simp [Option.filter, hv2]
        omega
      · have hv2 : ¬ now - v.timestamp ≤ c.entryTTL := by omega
        simp [Option.filter, hv2]
        omega
  · intro k v hkv
    rw [hlook k] at hkv
    cases hc : c.data.lookup k with
    | none => rw [hc] at hkv; simp [Option.filter] at hkv
    | some v2 =>
      rw [hc] at hkv
      by_cases hv : now ≤ v2.timestamp + c.entryTTL
      · simp [Option.filter, hv] at hkv
        rw [hkv]
      · simp [Option.filter, hv] at hkv

/-- Witness of C4: the sweep of `TestCache_PurgeCache`, run at two seconds. -/
theorem purge_exact_witness :
    IsRangeOrder ["TestCache_PurgeCache", "TestCache_PurgeCache2"] samplePurgeCache ∧
    (∀ k, k ∈ (samplePurgeCache.PurgeCache (fun _ => 2 * Second)
        ["TestCache_PurgeCache", "TestCache_PurgeCache2"]).data ↔
      ∃ v, samplePurgeCache.data.lookup k = some v ∧
        2 * Second - v.timestamp ≤ samplePurgeCache.entryTTL) :=
  ⟨samplePurgeCache_order,
    (purge_exact samplePurgeCache (2 * Second)
      ["TestCache_PurgeCache", "TestCache_PurgeCache2"] samplePurgeCache_order).1⟩

/-- C5 as stated fails.  Two entries of the same age wait under a ttl of one
second; both clocks read one second at the start of the scan and never go
back.  With the steady clock nothing is removed; with the ticking clock the
entry visited second is removed, and which entry that is follows the
visiting order. -/
theorem purge_later_readings_matter :
    Monotone steadyClock ∧ Monotone tickingClock ∧ steadyClock 0 = tickingClock 0 ∧
    IsRangeOrder ["78758", "78752"] sameAgeCache ∧
    IsRangeOrder ["78752", "78758"] sameAgeCache ∧
    (sameAgeCache.PurgeCache steadyClock ["78758", "78752"]).data.lookup "78752"
      = some ⟨0, sampleForecast, sampleTemp⟩ ∧
    (sameAgeCache.PurgeCache tickingClock ["78758", "78752"]).data.lookup "78752" = none ∧
    (sameAgeCache.PurgeCache tickingClock ["78752", "78758"]).data.lookup "78752"
      = some ⟨0, sampleForecast, sampleTemp⟩ := by
  have hne : ("78758" : String) ≠ "78752" := by decide
  refine ⟨fun _ _ _ => le_refl _, ?_, rfl, sameAgeCache_order.1, sameAgeCache_order.2,
    ?_, ?_, ?_⟩
  · apply monotone_nat_of_le_succ
    intro n
    unfold tickingClock
    by_cases hn : n = 0 <;> simp [hn]
  · simp [sameAgeCache, steadyClock, Cache.PurgeCache, purgeLoop, Cache.Add,
      Cache.SetEntryTTL, Finmap.lookup_insert, Finmap.lookup_insert_of_ne, hne, Second]
  · simp [sameAgeCache, tickingClock, Cache.PurgeCache, purgeLoop, Cache.Add,
      Cache.SetEntryTTL, Finmap.lookup_insert, Finmap.lookup_insert_of_ne,
      Finmap.lookup_erase, hne, Second]
  · simp [sameAgeCache, tickingClock, Cache.PurgeCache, purgeLoop, Cache.Add,
      Cache.SetEntryTTL, Finmap.lookup_insert, Finmap.lookup_insert_of_ne,
      Finmap.lookup_erase_ne, hne.symm, Second]

/-- C5, amended. `PurgeCache` reads the clock once for every entry it visits:
the entry visited at turn `i` is removed exactly when reading `i` is after its
timestamp plus the ttl.  When the readings never go back, every entry already
expired at the first reading is removed and every entry not yet expired at
the last reading is kept as it was; when all readings are equal, what is
removed is decided by that one reading, whatever the visiting order. -/
theorem purge_reads_clock_per_entry (c : Cache) (clock : Nat → Int) (order : List String)
    (horder : IsRangeOrder order c) (hmono : Monotone clock) :
    (∀ k, (c.PurgeCache clock order).data.lookup k =
      (c.data.lookup k).filter
        (fun v => decide (clock (order.indexOf k) ≤ v.timestamp + c.entryTTL))) ∧
    (∀ k v, c.data.lookup k = some v → clock 0 > v.timestamp + c.entryTTL →
      (c.PurgeCache clock order).data.lookup k = none) ∧
    (∀ k v, c.data.lookup k = some v →
      clock (order.length - 1) ≤ v.timestamp + c.entryTTL →
      (c.PurgeCache clock order).data.lookup k = some v) ∧
    ((∀ i, clock i = clock 0) → ∀ k, (c.PurgeCache clock order).data.lookup k =
      (c.data.lookup k).filter (fun v => decide (clock 0 ≤ v.timestamp + c.entryTTL))) := by
  have hlook := PurgeCache_lookup c clock order horder
  refine ⟨hlook, ?_, ?_, ?_⟩
  · intro k v hv hexp
    rw [hlook k, hv]
    have h0 : clock 0 ≤ clock (order.indexOf k) := hmono (Nat.zero_le _)
    have : ¬ clock (order.indexOf k) ≤ v.timestamp + c.entryTTL := by omega
    simp [Option.filter, this]
  · intro k v hv hval
    rw [hlook k, hv]
    have hmem : k ∈ order := (horder.mem_iff k).mpr (by rw [hv]; simp)
    have hidx : order.indexOf k < order.length := List.indexOf_lt_length.mpr hmem
    have h1 : clock (order.indexOf k) ≤ clock (order.length - 1) := hmono (by omega)
    have : clock (order.indexOf k) ≤ v.timestamp + c.entryTTL := le_trans h1 hval
    simp [Option.filter, this]
  · intro hconst k
    rw [hlook k, hconst (order.indexOf k)]

/-- Witness of C5, amended: the ticking clock on the two entries of the same
age. -/
theorem purge_reads_clock_per_entry_witness :
    IsRangeOrder ["78758", "78752"] sameAgeCache ∧ Monotone tickingClock ∧
    (∀ k, (sameAgeCache.PurgeCache tickingClock ["78758", "78752"]).data.lookup k =
      (sameAgeCache.data.lookup k).filter
        (fun v => decide (tickingClock (["78758", "78752"].indexOf k)
          ≤ v.timestamp + sameAgeCache.entryTTL))) :=
  have hmono : Monotone tickingClock := by
    apply monotone_nat_of_le_succ
    intro n
    unfold tickingClock
    by_cases hn : n = 0 <;> simp [hn]
  ⟨sameAgeCache_order.1, hmono,
    (purge_reads_clock_per_entry sameAgeCache tickingClock ["78758", "78752"]
      sameAgeCache_order.1 hmono).1⟩

/-- C6. Delete: after `Delete(k)` the map has no entry for `k`, every other
entry and the ttl are as before, an absent `k` leaves the state unchanged,
deleting twice is deleting once, and a `Get(k)` at any time misses. -/
theorem delete_spec (c : Cache) (k : String) :
    (c.Delete k).data.lookup k = none ∧
    (∀ k2, k2 ≠ k → (c.Delete k).data.lookup k2 = c.data.lookup k2) ∧
    (c.Delete k).entryTTL = c.entryTTL ∧
    (c.data.lookup k = none → c.Delete k = c) ∧
    (c.Delete k).Delete k = c.Delete k ∧
    (∀ now, (c.Delete k).Get now k
      = ((Float64.zero, WeeklyForecast.empty, false), c.Delete k)) := by
  have hgone : (c.Delete k).data.lookup k = none := by
    simp [Cache.Delete, Finmap.lookup_erase]
  refine ⟨hgone, ?_, rfl, ?_, ?_, ?_⟩
  · intro k2 hk
    simp [Cache.Delete, Finmap.lookup_erase_ne hk]
  · intro hnone
    simp [Cache.Delete, erase_absent c.data k hnone]
  · have := erase_absent (c.Delete k).data k hgone
    simp only [Cache.Delete] at this ⊢
    rw [this]
  · intro now
    exact Get_of_lookup_none (c.Delete k) now k hgone

/-! ## The orchestration contract -/

/-- C7. Miss then hit: when geocoding is accepted, the cache has no valid
entry under the derived key and the forecast client succeeds with
`(temp, fc)`, `getForecast` returns the canonical address, `temp`, `fc`,
`isFromCache = false` and a nil error, and the cache then holds `(temp, fc)`
under the derived key, stamped with the time of the `Add`.  A second
`getForecast` for the same address, geocoded to the same result and reading
the cache within the ttl of that stamp, returns `temp` and `fc` with
`isFromCache = true`, without calling the forecast client. -/
theorem getForecast_miss_then_hit (w w2 : World) (address : String) (c : Cache)
    (geocodeURL forecastURL apiKey : String) (g : GeocodeResult)
    (temp : Float64) (fc : WeeklyForecast)
    (hgeo : w.AddressToCoordinates address geocodeURL apiKey = g) (hacc : g.accepted)
    (hmiss : ∀ v, c.data.lookup (getPostalCode g.fullAddress) = some v →
      w.nowGet - v.timestamp > c.entryTTL)
    (hfc : w.GetForecast g.latitude g.longitude forecastURL = ⟨temp, fc, none⟩)
    (hgeo2 : w2.AddressToCoordinates address geocodeURL apiKey = g)
    (hwin : w2.nowGet - w.nowAdd ≤ c.entryTTL) :
    (getForecast w address c geocodeURL forecastURL apiKey).ret
      = ⟨g.fullAddress, temp, fc, false, none⟩ ∧
    (getForecast w address c geocodeURL forecastURL apiKey).cache.data.lookup
        (getPostalCode g.fullAddress) = some ⟨w.nowAdd, fc, temp⟩ ∧
    (getForecast w2 address (getForecast w address c geocodeURL forecastURL apiKey).cache
        geocodeURL forecastURL apiKey).ret
      = ⟨g.fullAddress, temp, fc, true, none⟩ ∧
    (getForecast w2 address (getForecast w address c geocodeURL forecastURL apiKey).cache
        geocodeURL forecastURL apiKey).calls
      = [Call.AddressToCoordinates address geocodeURL apiKey,
         Call.CacheGet (getPostalCode g.fullAddress)] := by
  have h1 := getForecast_of_miss w address c geocodeURL forecastURL apiKey g _ hgeo hacc
    hmiss hfc
  simp only [Option.isSome_none, Bool.false_eq_true, if_false] at h1
  have hget2 := add_get_hit (c.Delete (getPostalCode g.fullAddress))
    (getPostalCode g.fullAddress) temp fc w.nowAdd w2.nowGet hwin
  have h2 := getForecast_of_hit w2 address _ _ geocodeURL forecastURL apiKey g temp fc
    hgeo2 hacc hget2
  rw [h1]
  refine ⟨rfl, ?_, ?_, ?_⟩
  · simp [Cache.Add, Finmap.lookup_insert]
  · rw [h2]
  · rw [h2]

/-- Witness of C7: the two success cases of `main_test.go` in a row, on an
empty cache with the default ttl. -/
theorem getForecast_miss_then_hit_witness :
    sampleGeocode.accepted ∧ (2 : Int) - 1 ≤ GetCacheInstance.entryTTL ∧
    (getForecast (sampleWorld 0 1) sampleAddress GetCacheInstance
        "https://maps.googleapis.com" "https://api.open-meteo.com" "testApiKey").ret
      = ⟨sampleAddress, sampleUpstream.currentTemp, sampleUpstream.weeklyForecast, false,
          none⟩ ∧
    (getForecast (sampleWorld 2 3) sampleAddress
        (getForecast (sampleWorld 0 1) sampleAddress GetCacheInstance
          "https://maps.googleapis.com" "https://api.open-meteo.com" "testApiKey").cache
        "https://maps.googleapis.com" "https://api.open-meteo.com" "testApiKey").ret
      = ⟨sampleAddress, sampleUpstream.currentTemp, sampleUpstream.weeklyForecast, true,
          none⟩ :=
  have h := getForecast_miss_then_hit (sampleWorld 0 1) (sampleWorld 2 3) sampleAddress
    GetCacheInstance "https://maps.googleapis.com" "https://api.open-meteo.com" "testApiKey"
    sampleGeocode sampleUpstream.currentTemp sampleUpstream.weeklyForecast rfl
    sampleGeocode_accepted.1
    (by intro v hv; simp [GetCacheInstance, Finmap.lookup_empty] at hv)
    rfl rfl (by decide)
  ⟨sampleGeocode_accepted.1, by decide, h.1, h.2.2.1⟩

/-- C8. Cache hit: when geocoding is accepted and the cache holds an entry of
age at most the ttl under the derived key, `getForecast` returns the
canonical address, the cached temperature and forecast, `isFromCache = true`
and a nil error; it calls the geocoder and reads the cache, nothing else; the
cache is unchanged; and the whole run is the same whatever the forecast
client would have answered. -/
theorem getForecast_cache_hit (w : World) (address : String) (c : Cache)
    (geocodeURL forecastURL apiKey : String) (g : GeocodeResult) (v : Value)
    (hgeo : w.AddressToCoordinates address geocodeURL apiKey = g) (hacc : g.accepted)
    (hv : c.data.lookup (getPostalCode g.fullAddress) = some v)
    (hvalid : w.nowGet - v.timestamp ≤ c.entryTTL) :
    getForecast w address c geocodeURL forecastURL apiKey =
      { ret := ⟨g.fullAddress, v.currentTemp, v.weeklyForecast, true, none⟩
        cache := c
        calls := [Call.AddressToCoordinates address geocodeURL apiKey,
          Call.CacheGet (getPostalCode g.fullAddress)] } ∧
    (∀ client : Float64 → Float64 → String → ForecastResult,
      getForecast { w with GetForecast := client } address c geocodeURL forecastURL apiKey
        = getForecast w address c geocodeURL forecastURL apiKey) := by
  have hget := Get_of_valid c w.nowGet _ v hv hvalid
  have h1 := getForecast_of_hit w address c c geocodeURL forecastURL apiKey g _ _ hgeo hacc
    hget
  refine ⟨h1, ?_⟩
  intro client
  rw [h1]
  exact getForecast_of_hit { w with GetForecast := client } address c c geocodeURL
    forecastURL apiKey g _ _ hgeo hacc hget

/-- Witness of C8: the warm cache read one minute after the entry was
stamped, in a world whose forecast client is down. -/
theorem getForecast_cache_hit_witness :
    sampleGeocode.accepted ∧
    warmCache.data.lookup (getPostalCode sampleGeocode.fullAddress)
      = some ⟨0, sampleUpstream.weeklyForecast, sampleUpstream.currentTemp⟩ ∧
    getForecast { forecastDownWorld with
        AddressToCoordinates := fun _ _ _ => sampleGeocode, nowGet := Minute }
        sampleAddress warmCache
        "https://maps.googleapis.com" "https://api.open-meteo.com" "testApiKey" =
      { ret := ⟨sampleAddress, sampleUpstream.currentTemp, sampleUpstream.weeklyForecast,
          true, none⟩
        cache := warmCache
        calls := [Call.AddressToCoordinates sampleAddress "https://maps.googleapis.com"
            "testApiKey",
          Call.CacheGet (getPostalCode sampleGeocode.fullAddress)] } :=
  have hkey : getPostalCode sampleGeocode.fullAddress = "78758" := by decide
  have hv : warmCache.data.lookup (getPostalCode sampleGeocode.fullAddress)
      = some ⟨0, sampleUpstream.weeklyForecast, sampleUpstream.currentTemp⟩ := by
    rw [hkey]
    simp [warmCache, Cache.Add, Finmap.lookup_insert]
  ⟨sampleGeocode_accepted.1, hv,
    (getForecast_cache_hit _ sampleAddress warmCache "https://maps.googleapis.com"
      "https://api.open-meteo.com" "testApiKey" sampleGeocode _ rfl sampleGeocode_accepted.1
      hv (by decide)).1⟩

/-- C9. Coordinates unresolved: when the geocoder fails, or answers with an
empty address, or with a latitude or a longitude equal to zero, `getForecast`
returns `("", 0, WeeklyForecast{}, false, err)`, the message of `err` being
"error retrieving coordinates: " followed by what `%v` prints for the
geocoder's error; the geocoder is the only collaborator called, so the
forecast client is not called and the cache is neither read nor changed. -/
theorem getForecast_coordinates_unresolved (w : World) (address : String) (c : Cache)
    (geocodeURL forecastURL apiKey : String) (g : GeocodeResult)
    (hgeo : w.AddressToCoordinates address geocodeURL apiKey = g)
    (hrej : g.err ≠ none ∨ g.fullAddress = "" ∨ g.latitude.isZero = true
      ∨ g.longitude.isZero = true) :
    getForecast w address c geocodeURL forecastURL apiKey =
      { ret := ⟨"", Float64.zero, WeeklyForecast.empty, false,
          some ("error retrieving coordinates: " ++ verbV g.err)⟩
        cache := c
        calls := [Call.AddressToCoordinates address geocodeURL apiKey] } := by
  apply getForecast_of_rejected w address c geocodeURL forecastURL apiKey g hgeo
  rcases hrej with h | h | h | h
  · obtain ⟨e, he⟩ := Option.ne_none_iff_exists'.mp h
    simp [he]
  · simp [h]
  · simp [h]
  · simp [h]

/-- Witness of C9: the case "Geocode API Failed" of `main_test.go`, with the
error message that test expects. -/
theorem getForecast_coordinates_unresolved_witness :
    failedGeocode.err ≠ none ∧
    getForecast geocodeDownWorld sampleAddress warmCache "https://maps.googleapis.com"
        "https://api.open-meteo.com" "testApiKey" =
      { ret := ⟨"", Float64.zero, WeeklyForecast.empty, false,
          some "error retrieving coordinates: received non-OK HTTP status: 404 Not Found"⟩
        cache := warmCache
        calls := [Call.AddressToCoordinates sampleAddress "https://maps.googleapis.com"
          "testApiKey"] } :=
  ⟨by decide,
    getForecast_coordinates_unresolved geocodeDownWorld sampleAddress warmCache
      "https://maps.googleapis.com" "https://api.open-meteo.com" "testApiKey" failedGeocode
      rfl (Or.inl (by decide))⟩

/-- C10. Forecast unavailable: when geocoding is accepted, the cache has no
valid entry under the derived key and the forecast client fails with an error
of message `e`, `getForecast` returns `("", 0, WeeklyForecast{}, false, err)`
with the message "error retrieving forecast: " followed by `e`; no `Add` is
made, so afterwards the cache has no entry under the derived key and every
other entry, and the ttl, are as before. -/
theorem getForecast_forecast_unavailable (w : World) (address : String) (c : Cache)
    (geocodeURL forecastURL apiKey : String) (g : GeocodeResult) (r : ForecastResult)
    (e : String)
    (hgeo : w.AddressToCoordinates address geocodeURL apiKey = g) (hacc : g.accepted)
    (hmiss : ∀ v, c.data.lookup (getPostalCode g.fullAddress) = some v →
      w.nowGet - v.timestamp > c.entryTTL)
    (hfc : w.GetForecast g.latitude g.longitude forecastURL = r) (herr : r.err = some e) :
    (getForecast w address c geocodeURL forecastURL apiKey).ret
      = ⟨"", Float64.zero, WeeklyForecast.empty, false,
          some ("error retrieving forecast: " ++ e)⟩ ∧
    (getForecast w address c geocodeURL forecastURL apiKey).cache.data.lookup
      (getPostalCode g.fullAddress) = none ∧
    (∀ k, k ≠ getPostalCode g.fullAddress →
      (getForecast w address c geocodeURL forecastURL apiKey).cache.data.lookup k
        = c.data.lookup k) ∧
    (getForecast w address c geocodeURL forecastURL apiKey).cache.entryTTL = c.entryTTL ∧
    (getForecast w address c geocodeURL forecastURL apiKey).calls
      = [Call.AddressToCoordinates address geocodeURL apiKey,
         Call.CacheGet (getPostalCode g.fullAddress),
         Call.GetForecast g.latitude g.longitude forecastURL] := by
  have h1 := getForecast_of_miss w address c geocodeURL forecastURL apiKey g r hgeo hacc
    hmiss hfc
  simp only [herr, Option.isSome_some, if_true] at h1
  rw [h1]
  refine ⟨rfl, ?_, ?_, rfl, rfl⟩
  · simp [Cache.Delete, Finmap.lookup_erase]
  · intro k hk
    simp [Cache.Delete, Finmap.lookup_erase_ne hk]

/-- Witness of C10: the case "Forecast API Failed" of `main_test.go`, with the
error message that test expects, on a cache that holds another key. -/
theorem getForecast_forecast_unavailable_witness :
    otherGeocode.accepted ∧
    (getForecast forecastDownWorld sampleAddress warmCache "https://maps.googleapis.com"
        "https://api.open-meteo.com" "testApiKey").ret
      = ⟨"", Float64.zero, WeeklyForecast.empty, false,
          some "error retrieving forecast: received non-OK HTTP status: 404 Not Found"⟩ ∧
    (getForecast forecastDownWorld sampleAddress warmCache "https://maps.googleapis.com"
        "https://api.open-meteo.com" "testApiKey").cache.data.lookup
      (getPostalCode otherGeocode.fullAddress) = none :=
  have hkey : getPostalCode otherGeocode.fullAddress = "78752" := by decide
  have hne : ("78752" : String) ≠ "78758" := by decide
  have h := getForecast_forecast_unavailable forecastDownWorld sampleAddress warmCache
    "https://maps.googleapis.com" "https://api.open-meteo.com" "testApiKey" otherGeocode
    ⟨Float64.zero, WeeklyForecast.empty, some "received non-OK HTTP status: 404 Not Found"⟩
    "received non-OK HTTP status: 404 Not Found" rfl sampleGeocode_accepted.2
    (by
      intro v hv
      rw [hkey] at hv
      simp [warmCache, Cache.Add, GetCacheInstance, Finmap.lookup_insert_of_ne, hne,
        Finmap.lookup_empty] at hv)
    rfl rfl
  ⟨sampleGeocode_accepted.2, h.1, h.2.1⟩

/-! ## The key derivation -/

/-- C11 as stated fails.  In `tabAddress` the leftmost standalone occurrence
of two uppercase letters, one space and five digits is "CA 22222", at
position 9, yet `getPostalCode` returns "11111": the pattern of the code also
accepts the tab of "TX", which stands further left. -/
theorem getPostalCode_not_leftmost_space :
    standaloneAt isSingleSpace tabAddress.data 9 = true ∧
    (∀ j, j < 9 → standaloneAt isSingleSpace tabAddress.data j = false) ∧
    String.mk ((tabAddress.data.drop (9 + 3)).take 5) = "22222" ∧
    getPostalCode tabAddress = "11111" := by
  decide

/-- C11, amended. When the address holds a standalone two-uppercase-letter
token followed by one character of the class `\s` (space, tab, line feed,
form feed or carriage return) and a standalone five-digit code,
`getPostalCode` returns the five digits of the leftmost such occurrence. -/
theorem getPostalCode_leftmost_occurrence (address : String) (i : Nat)
    (hocc : standaloneAt isPerlSpace address.data i = true)
    (hleft : ∀ j, j < i → standaloneAt isPerlSpace address.data j = false) :
    getPostalCode address = String.mk ((address.data.drop (i + 3)).take 5) :=
  getPostalCode_of_leftmost address i hocc hleft

/-- Witness of C11, amended: the address of `TestMain_getPostalCode`, whose
only occurrence starts at position 33, gives "78758". -/
theorem getPostalCode_leftmost_occurrence_witness :
    standaloneAt isPerlSpace sampleAddress.data 33 = true ∧
    (∀ j, j < 33 → standaloneAt isPerlSpace sampleAddress.data j = false) ∧
    getPostalCode sampleAddress = "78758" :=
  ⟨by decide, by decide,
    getPostalCode_leftmost_occurrence sampleAddress 33 (by decide) (by decide)⟩

/-- C12 as stated fails.  In `tabOnlyAddress` two uppercase letters, one
space and five digits occur nowhere, yet `getPostalCode` returns "78758":
a tab between the letters and the digits produces a key. -/
theorem getPostalCode_tab_separator :
    (∀ i, i < tabOnlyAddress.data.length →
      patternAt isSingleSpace tabOnlyAddress.data i = false) ∧
    getPostalCode tabOnlyAddress = "78758" := by
  decide

/-- C12, amended. When two uppercase letters, one character of the class
`\s` and five digits occur nowhere in the address, `getPostalCode` returns
the empty string; and in every case the result is either empty or the five
digits of a standalone occurrence of that pattern, so nothing but a
character of the class `\s` between the letters and the digits produces a
key. -/
theorem getPostalCode_empty_without_pattern (address : String) :
    ((∀ i, i < address.data.length → patternAt isPerlSpace address.data i = false) →
      getPostalCode address = "") ∧
    (getPostalCode address = "" ∨
      ∃ i, standaloneAt isPerlSpace address.data i = true ∧
        getPostalCode address = String.mk ((address.data.drop (i + 3)).take 5)) := by
  constructor
  · intro hno
    apply getPostalCode_of_none
    intro j hj
    have hp := hno j hj
    simp only [standaloneAt, hp, Bool.and_false, Bool.false_and]
  · by_cases hex : ∃ i, standaloneAt isPerlSpace address.data i = true
    · right
      refine ⟨Nat.find hex, Nat.find_spec hex, ?_⟩
      apply getPostalCode_of_leftmost address (Nat.find hex) (Nat.find_spec hex)
      intro j hj
      have := Nat.find_min hex hj
      simpa using this
    · left
      apply getPostalCode_of_none
      intro j _
      by_contra hj
      exact hex ⟨j, by simpa using hj⟩

/-- Witness of C12, amended: the address without a postal code. -/
theorem getPostalCode_empty_without_pattern_witness :
    (∀ i, i < plainAddress.data.length → patternAt isPerlSpace plainAddress.data i = false) ∧
    getPostalCode plainAddress = "" :=
  ⟨by decide, (getPostalCode_empty_without_pattern plainAddress).1 (by decide)⟩

/-! ## Slices as references: what Add and Get share -/

/-- Writing at index `i` of a window of a list is writing at `i` in what the
window shows. -/
theorem window_set {α : Type} (l : List α) (o n i : Nat) (x : α) :
    ((l.set (o + i) x).drop o).take n = ((l.drop o).take n).set i x := by
  rw [← List.set_drop, List.set_take]

/-- What a `[]string` denotes after `s[i] = x` through its own header. -/
theorem readStrings_writeString (mem : Memory) (h : SliceHeader) (i : Nat) (x : String) :
    (mem.writeString h i x).readStrings (some h)
      = (mem.readStrings (some h)).map (fun l => l.set i x) := by
  unfold Memory.writeString
  by_cases hi : i < h.len
  · simp [hi, Memory.readStrings, window_set]
  · have hlen : (((mem.strings h.array).drop h.offset).take h.len).length ≤ i :=
      le_trans (List.length_take_le _ _) (not_lt.mp hi)
    simp [hi, Memory.readStrings, List.set_eq_of_length_le hlen]

/-- What a `[]float64` denotes after `s[i] = x` through its own header. -/
theorem readFloats_writeFloat (mem : Memory) (h : SliceHeader) (i : Nat) (x : Float64) :
    (mem.writeFloat h i x).readFloats (some h)
      = (mem.readFloats (some h)).map (fun l => l.set i x) := by
  unfold Memory.writeFloat
  by_cases hi : i < h.len
  · simp [hi, Memory.readFloats, window_set]
  · have hlen : (((mem.floats h.array).drop h.offset).take h.len).length ≤ i :=
      le_trans (List.length_take_le _ _) (not_lt.mp hi)
    simp [hi, Memory.readFloats, List.set_eq_of_length_le hlen]

/-- C13 as stated fails.  The forecast of `TestCache_Add` is added at time 0;
a `Get` at time 1 returns the header of its `Time` slice, and the sequences
that `Get` denotes are those of the forecast.  The caller then writes
"changed" at index 0 through that header; a `Get` at time 2 denotes a `Time`
sequence that reads "changed". -/
theorem get_shares_backing_arrays :
    ((sampleAliasedCache.Get 1 "TestCache_Add").1.2.1.view sampleMemory) = sampleForecast ∧
    (sampleAliasedCache.Get 1 "TestCache_Add").1.2.1.Time = some ⟨0, 0, 1⟩ ∧
    ((sampleAliasedCache.Get 2 "TestCache_Add").1.2.1.view
      (sampleMemory.writeString ⟨0, 0, 1⟩ 0 "changed")).Time = some ["changed"] := by
  have hget : ∀ now : Int, now ≤ 2 →
      (sampleAliasedCache.Get now "TestCache_Add").1.2.1 = sampleHeaders := by
    intro now hnow
    have : ¬ (30 * Minute < now) := by
      unfold Minute
      omega
    simp [sampleAliasedCache, Aliased.Cache.Get, Aliased.Cache.Add, Finmap.lookup_insert, this]
  rw [hget 1 (by decide), hget 2 (by decide)]
  refine ⟨?_, rfl, ?_⟩
  · simp [Aliased.WeeklyForecast.view, sampleHeaders, sampleMemory, Memory.readStrings,
      Memory.readFloats, sampleForecast]
  · simp [Aliased.WeeklyForecast.view, sampleHeaders, sampleMemory, Memory.readStrings,
      Memory.writeString]

/-- C13, amended. `Add` stores and `Get` returns the three slice headers of
the forecast as they are: within the ttl `Get(k)` returns exactly the headers
passed to `Add`, so the returned value, the entry and the caller's `f` share
their backing arrays.  An element written at index `i` of the `Time`,
`Temperature2MMax` or `Temperature2MMin` sequence through such a header is
seen by a later `Get(k)`: the sequence it denotes is the old one with
element `i` replaced. -/
theorem add_get_share_headers (c : Aliased.Cache) (k : String) (temp : Float64)
    (f : Aliased.WeeklyForecast) (t0 t1 : Int) (hwin : t1 - t0 ≤ c.entryTTL) :
    ((c.Add t0 k temp f).Get t1 k).1 = (temp, f, true) ∧
    (∀ (mem : Memory) (h : SliceHeader) (i : Nat) (x : String), f.Time = some h →
      (((c.Add t0 k temp f).Get t1 k).1.2.1.view (mem.writeString h i x)).Time
        = ((f.view mem).Time).map (fun l => l.set i x)) ∧
    (∀ (mem : Memory) (h : SliceHeader) (i : Nat) (x : Float64),
      f.Temperature2MMax = some h →
      (((c.Add t0 k temp f).Get t1 k).1.2.1.view (mem.writeFloat h i x)).Temperature2MMax
        = ((f.view mem).Temperature2MMax).map (fun l => l.set i x)) ∧
    (∀ (mem : Memory) (h : SliceHeader) (i : Nat) (x : Float64),
      f.Temperature2MMin = some h →
      (((c.Add t0 k temp f).Get t1 k).1.2.1.view (mem.writeFloat h i x)).Temperature2MMin
        = ((f.view mem).Temperature2MMin).map (fun l => l.set i x)) := by
  have hget : ((c.Add t0 k temp f).Get t1 k).1 = (temp, f, true) := by
    have hnot : ¬ (c.entryTTL < t1 - t0) := not_lt.mpr hwin
    simp [Aliased.Cache.Get, Aliased.Cache.Add, Finmap.lookup_insert, hnot]
  refine ⟨hget, ?_, ?_, ?_⟩
  · intro mem h i x hf
    rw [hget]
    simp only [Aliased.WeeklyForecast.view, hf]
    exact readStrings_writeString mem h i x
  · intro mem h i x hf
    rw [hget]
    simp only [Aliased.WeeklyForecast.view, hf]
    exact readFloats_writeFloat mem h i x
  · intro mem h i x hf
    rw [hget]
    simp only [Aliased.WeeklyForecast.view, hf]
    exact readFloats_writeFloat mem h i x

/-- Witness of C13, amended: the forecast of `TestCache_Add`, read one
nanosecond after it was added. -/
theorem add_get_share_headers_witness :
    (1 : Int) - 0 ≤ (30 * Minute) ∧
    ((Aliased.Cache.Add ⟨∅, 30 * Minute⟩ 0 "TestCache_Add" sampleTemp sampleHeaders).Get 1
      "TestCache_Add").1 = (sampleTemp, sampleHeaders, true) :=
  ⟨by decide,
    (add_get_share_headers ⟨∅, 30 * Minute⟩ "TestCache_Add" sampleTemp sampleHeaders 0 1
      (by decide)).1⟩

/-! ## The critical sections of Get, interleaved -/

/-- Run without interruption, the two parts of `Get` are `Get`. -/
theorem Get_eq_sections (c : Cache) (now : Int) (key : String) :
    c.GetDecide now key (c.GetRead key) = c.Get now key := by
  unfold Cache.GetDecide Cache.GetRead Cache.Get
  cases c.data.lookup key <;> rfl

/-- C14, the code at the failing schedule.  The cache of `TestCache_Get` holds
an entry stamped at time 0 under a ttl of one second.  At two seconds one
goroutine starts `Get`, whose lookup sees that entry; before it goes on,
another goroutine runs `Add` for the same key; the first goroutine then finds
the entry it saw expired and deletes the key.  `Get` reports a miss and the
fresh entry is gone, while in either sequential order of the two calls the
fresh entry is in the cache at the end. -/
theorem get_interleaved_with_add_loses_entry :
    sampleGetCache.GetRead "TestCache_Get" = some ⟨0, sampleForecast, sampleTemp⟩ ∧
    ((sampleGetCache.Add (2 * Second) "TestCache_Get" sampleTemp sampleForecast).GetDecide
        (2 * Second) "TestCache_Get" (sampleGetCache.GetRead "TestCache_Get")).1
      = (Float64.zero, WeeklyForecast.empty, false) ∧
    ((sampleGetCache.Add (2 * Second) "TestCache_Get" sampleTemp sampleForecast).GetDecide
        (2 * Second) "TestCache_Get"
        (sampleGetCache.GetRead "TestCache_Get")).2.data.lookup "TestCache_Get" = none ∧
    (((sampleGetCache.Get (2 * Second) "TestCache_Get").2.Add (2 * Second) "TestCache_Get"
        sampleTemp sampleForecast).data.lookup "TestCache_Get"
      = some ⟨2 * Second, sampleForecast, sampleTemp⟩) ∧
    (((sampleGetCache.Add (2 * Second) "TestCache_Get" sampleTemp sampleForecast).Get
        (2 * Second) "TestCache_Get").2.data.lookup "TestCache_Get"
      = some ⟨2 * Second, sampleForecast, sampleTemp⟩) := by
  have hread : sampleGetCache.GetRead "TestCache_Get"
      = some ⟨0, sampleForecast, sampleTemp⟩ := by
    simp [Cache.GetRead, sampleGetCache, Cache.Add, Finmap.lookup_insert]
  have hexp : (1000000000 : Int) < 2 * 1000000000 := by decide
  refine ⟨hread, ?_, ?_, ?_, ?_⟩
  · rw [hread]
    simp [Cache.GetDecide, Cache.Add, sampleGetCache, Cache.SetEntryTTL, Second, hexp]
  · rw [hread]
    simp [Cache.GetDecide, Cache.Add, sampleGetCache, Cache.SetEntryTTL, Second, hexp,
      Cache.Delete, Finmap.lookup_erase]
  · simp [Cache.Add, Finmap.lookup_insert]
  · rw [add_get_hit sampleGetCache "TestCache_Get" sampleTemp sampleForecast (2 * Second)
      (2 * Second) (by simp [sampleGetCache, Cache.Add, Cache.SetEntryTTL, Second])]
    simp [Cache.Add, Finmap.lookup_insert]

/-! ## One bucket per derived key -/

/-- C15. Shared bucket: when two accepted geocoding results have the same
`getPostalCode` value, the empty key included, and `getForecast` for the
first misses and stores `(temp, fc)`, then `getForecast` for the second,
reading the cache within the ttl of that stamp, returns its own canonical
address with `temp`, `fc`, `isFromCache = true` and a nil error; it calls the
geocoder and reads the cache, not the forecast client, whatever the
coordinates of the second result are. -/
theorem getForecast_shared_bucket (w w2 : World) (address address2 : String) (c : Cache)
    (geocodeURL forecastURL apiKey : String) (g g2 : GeocodeResult)
    (temp : Float64) (fc : WeeklyForecast)
    (hgeo : w.AddressToCoordinates address geocodeURL apiKey = g) (hacc : g.accepted)
    (hmiss : ∀ v, c.data.lookup (getPostalCode g.fullAddress) = some v →
      w.nowGet - v.timestamp > c.entryTTL)
    (hfc : w.GetForecast g.latitude g.longitude forecastURL = ⟨temp, fc, none⟩)
    (hgeo2 : w2.AddressToCoordinates address2 geocodeURL apiKey = g2) (hacc2 : g2.accepted)
    (hkey : getPostalCode g2.fullAddress = getPostalCode g.fullAddress)
    (hwin : w2.nowGet - w.nowAdd ≤ c.entryTTL) :
    (getForecast w address c geocodeURL forecastURL apiKey).ret
      = ⟨g.fullAddress, temp, fc, false, none⟩ ∧
    getForecast w2 address2 (getForecast w address c geocodeURL forecastURL apiKey).cache
        geocodeURL forecastURL apiKey
      = { ret := ⟨g2.fullAddress, temp, fc, true, none⟩
          cache := (getForecast w address c geocodeURL forecastURL apiKey).cache
          calls := [Call.AddressToCoordinates address2 geocodeURL apiKey,
            Call.CacheGet (getPostalCode g2.fullAddress)] } := by
  have h1 := getForecast_of_miss w address c geocodeURL forecastURL apiKey g _ hgeo hacc
    hmiss hfc
  simp only [Option.isSome_none, Bool.false_eq_true, if_false] at h1
  have hget2 := add_get_hit (c.Delete (getPostalCode g.fullAddress))
    (getPostalCode g.fullAddress) temp fc w.nowAdd w2.nowGet hwin
  rw [← hkey] at hget2
  rw [h1]
  refine ⟨rfl, ?_⟩
  rw [← hkey]
  exact getForecast_of_hit w2 address2 _ _ geocodeURL forecastURL apiKey g2 temp fc
    hgeo2 hacc2 hget2

/-- Witness of C15: two addresses without a postal code, so that both keys are
empty; the request for Berlin is served the forecast fetched for Paris. -/
theorem getForecast_shared_bucket_witness :
    getPostalCode berlinGeocode.fullAddress = "" ∧
    getPostalCode parisGeocode.fullAddress = "" ∧
    berlinGeocode.latitude ≠ parisGeocode.latitude ∧
    (getForecast { sampleWorld 2 3 with AddressToCoordinates := fun _ _ _ => berlinGeocode }
        "Berlin"
        (getForecast { sampleWorld 0 1 with AddressToCoordinates := fun _ _ _ => parisGeocode }
          "Paris" GetCacheInstance "https://maps.googleapis.com"
          "https://api.open-meteo.com" "testApiKey").cache
        "https://maps.googleapis.com" "https://api.open-meteo.com" "testApiKey").ret
      = ⟨"Berlin, Germany", sampleUpstream.currentTemp, sampleUpstream.weeklyForecast, true,
          none⟩ :=
  have h := getForecast_shared_bucket
    { sampleWorld 0 1 with AddressToCoordinates := fun _ _ _ => parisGeocode }
    { sampleWorld 2 3 with AddressToCoordinates := fun _ _ _ => berlinGeocode }
    "Paris" "Berlin" GetCacheInstance "https://maps.googleapis.com"
    "https://api.open-meteo.com" "testApiKey" parisGeocode berlinGeocode
    sampleUpstream.currentTemp sampleUpstream.weeklyForecast rfl
    ⟨rfl, by decide, by decide, by decide⟩
    (by intro v hv; simp [GetCacheInstance, Finmap.lookup_empty] at hv)
    rfl rfl ⟨rfl, by decide, by decide, by decide⟩ (by decide) (by decide)
  ⟨by decide, by decide, by decide, congrArg Outcome.ret h.2⟩

/-! ## Timestamps are set by Add alone -/

/-- An entry found after a deletion was there before. -/
theorem erase_sub (m : Finmap (fun _ : String => Value)) (k0 k : String) (v : Value)
    (h : (m.erase k0).lookup k = some v) : m.lookup k = some v := by
  by_cases hk : k = k0
  · subst hk
    rw [Finmap.lookup_erase] at h
    exact absurd h (by simp)
  · rwa [Finmap.lookup_erase_ne hk] at h

/-- An entry found after the scan was there before, whatever the clock and
the visiting order. -/
theorem purgeLoop_sub (clock : Nat → Int) (keys : List String) :
    ∀ (i : Nat) (c : Cache) (k : String) (v : Value),
      (purgeLoop clock keys i c).data.lookup k = some v → c.data.lookup k = some v := by
  induction keys with
  | nil => intro i c k v h; exact h
  | cons k0 keys ih =>
    intro i c k v h
    unfold purgeLoop at h
    split at h
    · exact ih i c k v h
    · split at h
      · exact erase_sub c.data k0 k v (ih _ _ k v h)
      · exact ih _ c k v h

/-- The state after `Get` is the state before, or that state with the key
deleted. -/
theorem Get_state (c : Cache) (now : Int) (key : String) :
    (c.Get now key).2 = c ∨ (c.Get now key).2 = c.Delete key := by
  unfold Cache.Get
  split
  · exact Or.inl rfl
  · split
    · exact Or.inr rfl
    · exact Or.inl rfl

/-- An entry found after a call that is not an `Add` on its key was there
before, unchanged. -/
theorem apply_sub (c : Cache) (op : Op) (k : String) (v : Value)
    (hop : op.addsKey k = false) (h : (c.apply op).data.lookup k = some v) :
    c.data.lookup k = some v := by
  cases op with
  | Get now key =>
    simp only [Cache.apply] at h
    rcases Get_state c now key with hs | hs
    · rwa [hs] at h
    · rw [hs] at h
      exact erase_sub c.data key k v h
  | Delete key => exact erase_sub c.data key k v h
  | SetEntryTTL entryTTL => exact h
  | PurgeCache clock order => exact purgeLoop_sub clock order 0 c k v h
  | Add now key currentTemp weeklyForecast =>
    have hne : k ≠ key := by
      intro hk
      simp [Op.addsKey, hk] at hop
    simpa [Cache.apply, Cache.Add, Finmap.lookup_insert_of_ne _ hne] using h

/-- Along a run without an `Add` on `k`, the entry of `k` is the one the run
started with, or is gone. -/
theorem run_sub (ops : List Op) (k : String) :
    ∀ (c : Cache) (v : Value), (∀ op ∈ ops, op.addsKey k = false) →
      (c.run ops).data.lookup k = some v → c.data.lookup k = some v := by
  induction ops with
  | nil => intro c v _ h; exact h
  | cons op ops ih =>
    intro c v hops h
    have h1 : ((c.apply op).run ops).data.lookup k = some v := h
    have h2 := ih (c.apply op) v (fun o ho => hops o (List.mem_cons_of_mem _ ho)) h1
    exact apply_sub c op k v (hops op (List.mem_cons_self _ _)) h2

/-- C16. The timestamp of an entry is set by `Add` on its key and by nothing
else: `Add` stamps its reading of the clock; a `Get` that hits leaves the
whole state as it is; after any call other than an `Add` on `k` the entry of
`k`, if still there, is the entry that was there before, timestamp,
temperature and forecast.  Hence after `Add(k)` at `t0` and any run of calls
without another `Add` on `k`, however many of them are reads that hit, a
`Get(k)` at a time later than `t0` plus the ttl then in force misses. -/
theorem timestamp_set_by_add_only (c : Cache) (k : String) :
    (∀ now temp f, (c.Add now k temp f).data.lookup k = some ⟨now, f, temp⟩) ∧
    (∀ now v, c.data.lookup k = some v → now - v.timestamp ≤ c.entryTTL →
      (c.Get now k).2 = c) ∧
    (∀ op v, op.addsKey k = false → (c.apply op).data.lookup k = some v →
      c.data.lookup k = some v) ∧
    (∀ t0 temp f ops now, (∀ op ∈ ops, op.addsKey k = false) →
      now - t0 > ((c.Add t0 k temp f).run ops).entryTTL →
      (((c.Add t0 k temp f).run ops).Get now k).1
        = (Float64.zero, WeeklyForecast.empty, false)) := by
  refine ⟨?_, ?_, ?_, ?_⟩
  · intro now temp f
    simp [Cache.Add, Finmap.lookup_insert]
  · intro now v hv hvalid
    rw [Get_of_valid c now k v hv hvalid]
  · intro op v hop h
    exact apply_sub c op k v hop h
  · intro t0 temp f ops now hops hlate
    cases hl : ((c.Add t0 k temp f).run ops).data.lookup k with
    | none => rw [Get_of_lookup_none _ now k hl]; rfl
    | some v =>
      have h0 := run_sub ops k (c.Add t0 k temp f) v hops hl
      have hv : v = ⟨t0, f, temp⟩ := by
        simp [Cache.Add, Finmap.lookup_insert] at h0
        exact h0.symm
      subst hv
      rw [Get_of_expired _ now k _ hl hlate]
      rfl

/-- Witness of C16: the run `sampleOps` after an `Add` at time 0 under a ttl of
one second; the read at three seconds and one nanosecond misses although the
ttl then in force is two seconds and the entry was hit twice. -/
theorem timestamp_set_by_add_only_witness :
    (∀ op ∈ sampleOps, op.addsKey "TestCache_Get" = false) ∧
    ((((GetCacheInstance.SetEntryTTL Second).Add 0 "TestCache_Get" sampleTemp
        sampleForecast).run sampleOps).Get (3 * Second + 1) "TestCache_Get").1
      = (Float64.zero, WeeklyForecast.empty, false) :=
  have hops : ∀ op ∈ sampleOps, op.addsKey "TestCache_Get" = false := by
    intro op hop
    simp only [sampleOps, List.mem_cons, List.mem_singleton, List.not_mem_nil, or_false] at hop
    rcases hop with h | h | h | h <;> subst h <;> rfl
  have httl : ∀ (c : Cache), (c.run sampleOps).entryTTL = 2 * Second := by
    intro c
    simp only [sampleOps, Cache.run, List.foldl, Cache.apply]
    rfl
  ⟨hops,
    (timestamp_set_by_add_only (GetCacheInstance.SetEntryTTL Second) "TestCache_Get").2.2.2
      0 sampleTemp sampleForecast sampleOps (3 * Second + 1) hops
      (by rw [httl]; decide)⟩

/-! ## Sweep and expiry on read agree -/

/-- C17. The test of the sweep, `now > createdAt + ttl`, and the test of
`Get`, `now - createdAt > ttl`, accept the same entries; so `Get(k)` at `now`
returns the same triple whether or not `PurgeCache` ran just before with its
clock at the same `now`, whatever order the sweep visited the keys in. -/
theorem purge_unobservable_through_get (c : Cache) (now : Int) (order : List String)
    (k : String) (horder : IsRangeOrder order c) :
    (∀ v : Value, now > v.timestamp + c.entryTTL ↔ now - v.timestamp > c.entryTTL) ∧
    ((c.PurgeCache (fun _ => now) order).Get now k).1 = (c.Get now k).1 := by
  constructor
  · intro v
    constructor <;> intro h <;> omega
  · have hlook := PurgeCache_lookup c (fun _ => now) order horder k
    have httl : (c.PurgeCache (fun _ => now) order).entryTTL = c.entryTTL :=
      purgeLoop_entryTTL _ order 0 c
    cases hc : c.data.lookup k with
    | none =>
      rw [hc] at hlook
      rw [Get_of_lookup_none c now k hc, Get_of_lookup_none _ now k hlook]
    | some v =>
      rw [hc] at hlook
      by_cases hv : now ≤ v.timestamp + c.entryTTL
      · have hkeep : (c.PurgeCache (fun _ => now) order).data.lookup k = some v := by
          rw [hlook]
          simp [Option.filter, hv]
        rw [Get_of_valid c now k v hc (by omega),
          Get_of_valid _ now k v hkeep (by rw [httl]; omega)]
      · have hgone : (c.PurgeCache (fun _ => now) order).data.lookup k = none := by
          rw [hlook]
          simp [Option.filter, hv]
        rw [Get_of_expired c now k v hc (by omega), Get_of_lookup_none _ now k hgone]

/-- Witness of C17: the sweep of `TestCache_PurgeCache` at two seconds, then a
read of the first key at the same time. -/
theorem purge_unobservable_through_get_witness :
    IsRangeOrder ["TestCache_PurgeCache", "TestCache_PurgeCache2"] samplePurgeCache ∧
    ((samplePurgeCache.PurgeCache (fun _ => 2 * Second)
        ["TestCache_PurgeCache", "TestCache_PurgeCache2"]).Get (2 * Second)
        "TestCache_PurgeCache").1
      = (samplePurgeCache.Get (2 * Second) "TestCache_PurgeCache").1 :=
  ⟨samplePurgeCache_order,
    (purge_unobservable_through_get samplePurgeCache (2 * Second)
      ["TestCache_PurgeCache", "TestCache_PurgeCache2"] "TestCache_PurgeCache"
      samplePurgeCache_order).2⟩

end Weather
